import Mathlib

/-!
Verification of `scripts/check_parens.py`, a balance checker for
Clojure parentheses/brackets/braces that attributes problems to
top-level forms.

The Python source is embedded shallowly:

* strings are modelled as `List Char` (one cell per character);
* the helper functions `skip_comment`, `skip_space_and_comments`,
  `read_symbol` and `describe_top_level_form` become structurally
  recursive functions over the character list;
* the scanning loop of `check_file` becomes a step function
  `scanStep` on an explicit `ScanState` record, folded over the text
  by `scanLoop`; the Python list used as a stack appends at the end
  and is reported with `reversed(...)`, here the stack is built by
  consing at the head (most recently pushed entry first), so the
  end-of-input report walks the list front to back;
* error messages become the structured `Diag` records carrying
  exactly the data interpolated into the Python f-strings;
* the directory branch of `gather_files` is embedded with the file
  system abstracted: `tree` stands for the recursive listing that
  `Path.rglob` draws from, and `extOrder` for the iteration order of
  the Python `set` literal `SIGNIFICANT_EXTENSIONS` (which CPython
  does not specify).
-/

/-- `WHITESPACE = set(" \t\r\n,")` from the source. -/
def WHITESPACE : List Char := [' ', '\t', '\r', '\n', ',']

/-- `DEF_LIKE` from the source. -/
def DEF_LIKE : List String :=
  ["def", "defonce", "defn", "defmacro", "defmethod", "defmulti",
   "defrecord", "defprotocol", "deftype", "definterface"]

/-- `ch in OPENING` from the source (`OPENING` has keys `(`, `[`, `{`). -/
def isOpenDelim (c : Char) : Bool := c = '(' || c = '[' || c = '{'

/-- `ch in CLOSING` from the source (`CLOSING` has keys `)`, `]`, `}`). -/
def isCloseDelim (c : Char) : Bool := c = ')' || c = ']' || c = '}'

/-- `OPENING[c]`: the closing delimiter paired with an opening one. -/
def closerOf (c : Char) : Char :=
  if c = '(' then ')' else if c = '[' then ']' else '}'

/-- `CLOSING[c]`: the opening delimiter expected by a closing one. -/
def openerOf (c : Char) : Char :=
  if c = ')' then '(' else if c = ']' then '[' else '{'

/-- The character class `'()[]{}"'` used by `read_symbol`. -/
def symStopChars : List Char := ['(', ')', '[', ']', '{', '}', '"']

/-- `skip_comment`: advance to the next newline (the newline itself is
not consumed), mirroring the `while` loop of the Python function. -/
def skip_comment : List Char → List Char
  | [] => []
  | c :: rest => if c = '\n' then c :: rest else skip_comment rest

/-- The combined skipping loop of `skip_space_and_comments`: with the
flag clear it skips whitespace and enters a comment at `;`; with the
flag set it is inside `skip_comment`, discarding characters up to the
newline (which, being whitespace, the outer loop then consumes). The
Python function is the flag-clear entry point; the flag threads the
`skip_comment` call structurally. -/
def skipSC : Bool → List Char → List Char
  | _, [] => []
  | true, c :: rest => if c = '\n' then skipSC false rest else skipSC true rest
  | false, c :: rest =>
    if c ∈ WHITESPACE then skipSC false rest
    else if c = ';' then skipSC true rest
    else c :: rest

/-- `skip_space_and_comments`: skip whitespace and `;`-to-end-of-line
comments, stopping at the first other character. -/
def skip_space_and_comments (l : List Char) : List Char := skipSC false l

/-- Entering the comment-skipping phase is the same as running
`skip_comment` and then resuming the whitespace skip. -/
theorem skipSC_true_eq (l : List Char) :
    skipSC true l = skip_space_and_comments (skip_comment l) := by
  induction l with
  | nil => rfl
  | cons c rest ih =>
    by_cases h : c = '\n'
    · subst h
      simp [skipSC, skip_comment, skip_space_and_comments, WHITESPACE]
    · simp [skipSC, skip_comment, h, ih]

/-- The break test of the symbol-reading `while` loop in `read_symbol`:
whitespace, a structural delimiter or quote, or a comment start. -/
def isSymbolBreak (c : Char) : Bool :=
  c ∈ WHITESPACE || c ∈ symStopChars || c = ';'

/-- The symbol-reading `while` loop of `read_symbol`: the maximal run of
non-break characters, together with the remaining text. -/
def takeSym : List Char → List Char × List Char
  | [] => ([], [])
  | c :: rest =>
    if isSymbolBreak c then ([], c :: rest)
    else
      let p := takeSym rest
      (c :: p.1, p.2)

/-- `read_symbol`: skip space/comments, then either report no symbol
(end of input or a delimiter/quote) or read a maximal symbol token. -/
def read_symbol (l : List Char) : Option (List Char) × List Char :=
  match skip_space_and_comments l with
  | [] => (none, [])
  | c :: rest =>
    if c ∈ symStopChars then (none, c :: rest)
    else
      let p := takeSym (c :: rest)
      (some p.1, p.2)

/-- `describe_top_level_form`: label the top-level form whose text
starts at `l` (the text just after the opening parenthesis). -/
def describe_top_level_form (l : List Char) (line : Nat) : String :=
  match read_symbol l with
  | (none, _) => "form starting line " ++ toString line
  | (some sym, after) =>
    if sym = [] then "form starting line " ++ toString line
    else if String.mk sym ∈ DEF_LIKE ∨ String.mk sym = "ns" then
      match (read_symbol after).1 with
      | some name =>
        if name = [] then String.mk sym ++ " form line " ++ toString line
        else String.mk sym ++ " " ++ String.mk name
      | none => String.mk sym ++ " form line " ++ toString line
    else String.mk sym ++ " form line " ++ toString line

/-- `ParenEntry` from the source. -/
structure ParenEntry where
  char : Char
  line : Nat
  col : Nat
  form : String
deriving DecidableEq, Repr

/-- One diagnostic of `check_file`, carrying exactly the data the
Python code interpolates into the corresponding error string. -/
inductive Diag where
  | unexpectedClose (line col : Nat) (ch : Char)
  | mismatched (line col : Nat) (ch expected : Char) (entry : ParenEntry)
  | unclosed (entry : ParenEntry)
deriving DecidableEq, Repr

/-- The mutable locals of `check_file`'s scanning loop. -/
structure ScanState where
  stack : List ParenEntry
  errors : List Diag
  line : Nat
  col : Nat
  current_form : String
  in_string : Bool
  escape : Bool
  in_comment : Bool
deriving DecidableEq, Repr

/-- One iteration of `check_file`'s `while` loop on character `ch`;
`rest` is the text after `ch` (used by the form namer, which reads
ahead from `idx + 1`). -/
def scanStep (st : ScanState) (ch : Char) (rest : List Char) : ScanState :=
  if ch = '\n' then
    { st with line := st.line + 1, col := 0, in_comment := false }
  else
    let st1 := { st with col := st.col + 1 }
    if st1.in_comment then st1
    else if st1.in_string then
      if st1.escape then { st1 with escape := false }
      else if ch = '\\' then { st1 with escape := true }
      else if ch = '"' then { st1 with in_string := false }
      else st1
    else if ch = ';' then { st1 with in_comment := true }
    else if ch = '"' then { st1 with in_string := true }
    else if isOpenDelim ch then
      let form :=
        if ch = '(' ∧ st1.stack = [] then
          describe_top_level_form rest st1.line
        else st1.current_form
      { st1 with current_form := form,
                 stack := ⟨ch, st1.line, st1.col, form⟩ :: st1.stack }
    else if isCloseDelim ch then
      match st1.stack with
      | [] =>
        { st1 with errors :=
            st1.errors ++ [Diag.unexpectedClose st1.line st1.col ch] }
      | entry :: stk =>
        let st2 := { st1 with stack := stk }
        let st3 :=
          if entry.char ≠ openerOf ch then
            { st2 with errors :=
                st2.errors ++
                  [Diag.mismatched st1.line st1.col ch (openerOf ch) entry] }
          else st2
        if stk = [] then { st3 with current_form := "top-level" } else st3
    else st1

/-- `check_file`'s `while` loop, folded over the whole text. -/
def scanLoop (st : ScanState) : List Char → ScanState
  | [] => st
  | ch :: rest => scanLoop (scanStep st ch rest) rest

/-- The initial values of `check_file`'s locals. -/
def initState : ScanState :=
  { stack := [], errors := [], line := 1, col := 0,
    current_form := "top-level", in_string := false,
    escape := false, in_comment := false }

/-- `check_file` on already-read text: run the scan, then report every
entry still on the stack, most recently pushed first. -/
def check_text (text : List Char) : List Diag :=
  let st := scanLoop initState text
  st.errors ++ st.stack.map Diag.unclosed

/-- Classifier used to state ordering facts about diagnostics. -/
def Diag.isUnclosed : Diag → Bool
  | .unclosed _ => true
  | _ => false

/-- C2 (counterexample): on `(defn f [x (+ x 1)` the scan does not emit
three diagnostics: the trailing `)` closes the `(` opened at column 12,
so only two entries remain on the stack at end of input. -/
theorem C2_counterexample_length :
    (check_text "(defn f [x (+ x 1)".toList).length ≠ 3 := by decide

/-- C2 (amended): on `(defn f [x (+ x 1)` the scan emits exactly two
`UnclosedDelimiter` diagnostics, the `[` opened at line 1 column 9
first, then the `(` opened at line 1 column 1, both attributed to the
enclosing form `defn f`, and no diagnostic of any other kind. -/
theorem C2_two_unclosed_innermost_first :
    check_text "(defn f [x (+ x 1)".toList =
      [Diag.unclosed ⟨'[', 1, 9, "defn f"⟩,
       Diag.unclosed ⟨'(', 1, 1, "defn f"⟩] := by decide

/-- C3 (counterexample): on `(+ 1 2)]` no diagnostic is located at
line 1 column 9: the `]` is the eighth character of the line. -/
theorem C3_counterexample_column :
    Diag.unexpectedClose 1 9 ']' ∉ check_text "(+ 1 2)]".toList := by decide

/-- C3 (amended): on `(+ 1 2)]` the scan emits exactly one diagnostic,
an `UnexpectedClosingDelimiter` for the `]` at line 1 column 8, and no
`UnclosedDelimiter` diagnostics. -/
theorem C3_single_unexpected_close :
    check_text "(+ 1 2)]".toList = [Diag.unexpectedClose 1 8 ']'] := by decide

theorem scanStep_nl (st : ScanState) (r : List Char) :
    scanStep st '\n' r =
      { st with line := st.line + 1, col := 0, in_comment := false } := by
  simp [scanStep]

theorem scanStep_comment (st : ScanState) (ch : Char) (r : List Char)
    (h1 : ch ≠ '\n') (h2 : st.in_comment = true) :
    scanStep st ch r = { st with col := st.col + 1 } := by
  simp [scanStep, h1, h2]

theorem scanStep_str_esc (st : ScanState) (ch : Char) (r : List Char)
    (h1 : ch ≠ '\n') (h2 : st.in_comment = false)
    (h3 : st.in_string = true) (h4 : st.escape = true) :
    scanStep st ch r = { st with col := st.col + 1, escape := false } := by
  simp [scanStep, h1, h2, h3, h4]

theorem scanStep_str_bs (st : ScanState) (r : List Char)
    (h2 : st.in_comment = false) (h3 : st.in_string = true)
    (h4 : st.escape = false) :
    scanStep st '\\' r = { st with col := st.col + 1, escape := true } := by
  simp [scanStep, h2, h3, h4]

theorem scanStep_str_end (st : ScanState) (r : List Char)
    (h2 : st.in_comment = false) (h3 : st.in_string = true)
    (h4 : st.escape = false) :
    scanStep st '"' r = { st with col := st.col + 1, in_string := false } := by
  simp [scanStep, h2, h3, h4]

theorem scanStep_str_other (st : ScanState) (ch : Char) (r : List Char)
    (h1 : ch ≠ '\n') (h5 : ch ≠ '\\') (h6 : ch ≠ '"')
    (h2 : st.in_comment = false) (h3 : st.in_string = true)
    (h4 : st.escape = false) :
    scanStep st ch r = { st with col := st.col + 1 } := by
  simp [scanStep, h1, h5, h6, h2, h3, h4]

theorem scanStep_semi (st : ScanState) (r : List Char)
    (h2 : st.in_comment = false) (h3 : st.in_string = false) :
    scanStep st ';' r = { st with col := st.col + 1, in_comment := true } := by
  simp [scanStep, h2, h3]

theorem scanStep_quote (st : ScanState) (r : List Char)
    (h2 : st.in_comment = false) (h3 : st.in_string = false) :
    scanStep st '"' r = { st with col := st.col + 1, in_string := true } := by
  simp [scanStep, h2, h3]

theorem scanStep_open (st : ScanState) (ch : Char) (r : List Char)
    (h2 : st.in_comment = false) (h3 : st.in_string = false)
    (ho : isOpenDelim ch = true) :
    scanStep st ch r =
      { st with col := st.col + 1,
                current_form :=
                  if ch = '(' ∧ st.stack = [] then
                    describe_top_level_form r st.line
                  else st.current_form,
                stack :=
                  ⟨ch, st.line, st.col + 1,
                    if ch = '(' ∧ st.stack = [] then
                      describe_top_level_form r st.line
                    else st.current_form⟩ :: st.stack } := by
  have hch : (ch = '(' ∨ ch = '[') ∨ ch = '{' := by
    simpa [isOpenDelim] using ho
  rcases hch with (rfl | rfl) | rfl <;> simp [scanStep, h2, h3, isOpenDelim, isCloseDelim]

theorem scanStep_close_empty (st : ScanState) (ch : Char) (r : List Char)
    (h2 : st.in_comment = false) (h3 : st.in_string = false)
    (hc : isCloseDelim ch = true) (hs : st.stack = []) :
    scanStep st ch r =
      { st with col := st.col + 1,
                errors := st.errors ++
                  [Diag.unexpectedClose st.line (st.col + 1) ch] } := by
  have hch : (ch = ')' ∨ ch = ']') ∨ ch = '}' := by
    simpa [isCloseDelim] using hc
  rcases hch with (rfl | rfl) | rfl <;> simp [scanStep, h2, h3, hs, isOpenDelim, isCloseDelim]

theorem scanStep_close_pop (st : ScanState) (ch : Char) (r : List Char)
    (e : ParenEntry) (stk : List ParenEntry)
    (h2 : st.in_comment = false) (h3 : st.in_string = false)
    (hc : isCloseDelim ch = true) (hs : st.stack = e :: stk) :
    scanStep st ch r =
      { st with col := st.col + 1, stack := stk,
                errors := st.errors ++
                  (if e.char = openerOf ch then []
                   else [Diag.mismatched st.line (st.col + 1) ch
                          (openerOf ch) e]),
                current_form :=
                  if stk = [] then "top-level" else st.current_form } := by
  by_cases hm : e.char = openerOf ch <;>
    by_cases hb : stk = [] <;>
      (have hch : (ch = ')' ∨ ch = ']') ∨ ch = '}' := by
        simpa [isCloseDelim] using hc
       rcases hch with (rfl | rfl) | rfl <;>
        simp [scanStep, h2, h3, hs, hm, hb, isOpenDelim, isCloseDelim])

theorem scanStep_plain (st : ScanState) (ch : Char) (r : List Char)
    (h1 : ch ≠ '\n') (h7 : ch ≠ ';') (h6 : ch ≠ '"')
    (ho : isOpenDelim ch = false) (hc : isCloseDelim ch = false)
    (h2 : st.in_comment = false) (h3 : st.in_string = false) :
    scanStep st ch r = { st with col := st.col + 1 } := by
  simp [scanStep, h1, h7, h6, ho, hc, h2, h3]

theorem scanStep_no_unclosed (st : ScanState) (ch : Char)
    (rest : List Char)
    (h : ∀ d ∈ st.errors, Diag.isUnclosed d = false) :
    ∀ d ∈ (scanStep st ch rest).errors, Diag.isUnclosed d = false := by
  by_cases h1 : ch = '\n'
  · subst h1; rw [scanStep_nl]; exact h
  by_cases h2 : st.in_comment = true
  · rw [scanStep_comment st ch rest h1 h2]; exact h
  rw [Bool.not_eq_true] at h2
  by_cases h3 : st.in_string = true
  · by_cases h4 : st.escape = true
    · rw [scanStep_str_esc st ch rest h1 h2 h3 h4]; exact h
    rw [Bool.not_eq_true] at h4
    by_cases h5 : ch = '\\'
    · subst h5; rw [scanStep_str_bs st rest h2 h3 h4]; exact h
    by_cases h6 : ch = '"'
    · subst h6; rw [scanStep_str_end st rest h2 h3 h4]; exact h
    · rw [scanStep_str_other st ch rest h1 h5 h6 h2 h3 h4]; exact h
  rw [Bool.not_eq_true] at h3
  by_cases h7 : ch = ';'
  · subst h7; rw [scanStep_semi st rest h2 h3]; exact h
  by_cases h6 : ch = '"'
  · subst h6; rw [scanStep_quote st rest h2 h3]; exact h
  by_cases ho : isOpenDelim ch = true
  · rw [scanStep_open st ch rest h2 h3 ho]; exact h
  rw [Bool.not_eq_true] at ho
  by_cases hcl : isCloseDelim ch = true
  · match hs : st.stack with
    | [] =>
      rw [scanStep_close_empty st ch rest h2 h3 hcl hs]
      intro d hd
      rcases List.mem_append.mp hd with h9 | h9
      · exact h d h9
      · rcases List.mem_singleton.mp h9 with rfl; rfl
    | e :: stk =>
      rw [scanStep_close_pop st ch rest e stk h2 h3 hcl hs]
      intro d hd
      rcases List.mem_append.mp hd with h9 | h9
      · exact h d h9
      · by_cases hm : e.char = openerOf ch
        · simp [hm] at h9
        · simp only [hm, if_false] at h9
          rcases List.mem_singleton.mp h9 with rfl; rfl
  · rw [Bool.not_eq_true] at hcl
    rw [scanStep_plain st ch rest h1 h7 h6 ho hcl h2 h3]; exact h

theorem scanLoop_errors_no_unclosed (t : List Char) :
    ∀ st : ScanState, (∀ d ∈ st.errors, Diag.isUnclosed d = false) →
      ∀ d ∈ (scanLoop st t).errors, Diag.isUnclosed d = false := by
  induction t with
  | nil => intro st h; exact h
  | cons ch rest ih =>
    intro st h
    exact ih (scanStep st ch rest) (scanStep_no_unclosed st ch rest h)

/-- C4: the diagnostics of a scan are the in-scan errors (none of which
is an unclosed-delimiter report) followed by one `UnclosedDelimiter`
diagnostic per entry remaining on the stack, most recently pushed
entry first (the stack is consed at the head, so mapping over it walks
it in reverse push order). -/
theorem C4_unclosed_after_errors_reverse_order (t : List Char) :
    check_text t =
      (scanLoop initState t).errors ++
        ((scanLoop initState t).stack.map Diag.unclosed) ∧
    (∀ d ∈ (scanLoop initState t).errors, Diag.isUnclosed d = false) ∧
    (∀ d ∈ (scanLoop initState t).stack.map Diag.unclosed,
        Diag.isUnclosed d = true) := by
  refine ⟨rfl, ?_, ?_⟩
  · exact scanLoop_errors_no_unclosed t initState (by simp [initState])
  · intro d hd
    rcases List.mem_map.mp hd with ⟨e, _, rfl⟩
    rfl

/-- C6: a closing delimiter met outside strings/comments whose type
does not match the top stack entry pops that entry, appends exactly one
mismatch diagnostic carrying the expected opener, the actual last-open
entry (with its character, form label and opening position), resets the
form label to `top-level` when the pop empties the stack, and the scan
continues on the rest of the text from that state. -/
theorem C6_mismatch_pop_report_continue (st : ScanState) (ch : Char)
    (rest : List Char) (e : ParenEntry) (stk : List ParenEntry)
    (hnc : st.in_comment = false) (hns : st.in_string = false)
    (hc : isCloseDelim ch = true) (hst : st.stack = e :: stk)
    (hmm : e.char ≠ openerOf ch) :
    scanLoop st (ch :: rest) =
      scanLoop
        { st with col := st.col + 1, stack := stk,
                  errors := st.errors ++
                    [Diag.mismatched st.line (st.col + 1) ch (openerOf ch) e],
                  current_form :=
                    if stk = [] then "top-level" else st.current_form }
        rest := by
  show scanLoop (scanStep st ch rest) rest = _
  congr 1
  have hch : (ch = ')' ∨ ch = ']') ∨ ch = '}' := by
    simpa [isCloseDelim] using hc
  rcases hch with (rfl | rfl) | rfl <;>
    by_cases hb : stk = [] <;>
      simp_all [scanStep, hnc, hns, hst, hmm, isOpenDelim, isCloseDelim]

/-- C7: an opening delimiter outside strings/comments pushes one entry
carrying the current position and the form label; the label is
recomputed by the form namer exactly when the character is `(` and the
stack is empty, and is otherwise inherited unchanged. -/
theorem C7_label_recompute_gating (st : ScanState) (ch : Char)
    (rest : List Char) (hnc : st.in_comment = false)
    (hns : st.in_string = false) (ho : isOpenDelim ch = true) :
    (scanStep st ch rest).stack =
      ⟨ch, st.line, st.col + 1, (scanStep st ch rest).current_form⟩ ::
        st.stack ∧
    (ch = '(' ∧ st.stack = [] →
      (scanStep st ch rest).current_form =
        describe_top_level_form rest st.line) ∧
    (¬(ch = '(' ∧ st.stack = []) →
      (scanStep st ch rest).current_form = st.current_form) := by
  have hch : (ch = '(' ∨ ch = '[') ∨ ch = '{' := by
    simpa [isOpenDelim] using ho
  rcases hch with (rfl | rfl) | rfl <;>
    by_cases hb : st.stack = [] <;>
      simp_all [scanStep, hnc, hns, isOpenDelim]

/-- C10: a newline inside a string literal advances the line counter,
resets the column, and clears neither the in-string flag nor a pending
escape; with a pending escape, a `"` is consumed as the escaped
character, leaving the string open. -/
theorem C10_string_newline_escape (st : ScanState) (r r' : List Char)
    (hs : st.in_string = true) (hc : st.in_comment = false) :
    ((scanStep st '\n' r).in_string = true ∧
     (scanStep st '\n' r).escape = st.escape ∧
     (scanStep st '\n' r).line = st.line + 1 ∧
     (scanStep st '\n' r).col = 0) ∧
    (st.escape = true →
      (scanStep st '"' r').in_string = true ∧
      (scanStep st '"' r').escape = false) := by
  constructor
  · simp [scanStep, hs]
  · intro he
    simp [scanStep, hs, hc, he]

theorem C10_string_newline_escape_witness :
    ({ initState with in_string := true, escape := true } : ScanState).in_string = true ∧
    ((scanStep { initState with in_string := true, escape := true } '\n' []).escape = true ∧
     (scanStep { initState with in_string := true, escape := true } '"' []).in_string = true) := by
  refine ⟨by decide, ?_, ?_⟩
  · have h := C10_string_newline_escape
      { initState with in_string := true, escape := true } [] []
      (by decide) (by decide)
    rw [h.1.2.1]
  · exact (C10_string_newline_escape
      { initState with in_string := true, escape := true } [] []
      (by decide) (by decide)).2 rfl |>.1

theorem C6_mismatch_pop_report_continue_witness :
    isCloseDelim ']' = true ∧
    scanLoop { initState with stack := [⟨'(', 1, 1, "top-level"⟩] } [']'] =
      scanLoop { initState with
                  col := 1, stack := [],
                  errors := [Diag.mismatched 1 1 ']' '['
                              ⟨'(', 1, 1, "top-level"⟩],
                  current_form := "top-level" } [] := by
  refine ⟨by decide, ?_⟩
  have h := C6_mismatch_pop_report_continue
    { initState with stack := [⟨'(', 1, 1, "top-level"⟩] } ']' []
    ⟨'(', 1, 1, "top-level"⟩ [] rfl rfl (by decide) rfl (by decide)
  exact h

theorem C7_label_recompute_gating_witness :
    isOpenDelim '(' = true ∧
    (scanStep initState '(' "ns my.app)".toList).current_form =
      describe_top_level_form "ns my.app)".toList 1 ∧
    (scanStep { initState with stack := [⟨'(', 1, 1, "x"⟩] } '[' []).current_form =
      ({ initState with stack := [⟨'(', 1, 1, "x"⟩] } : ScanState).current_form := by
  refine ⟨by decide, ?_, ?_⟩
  · exact (C7_label_recompute_gating initState '(' "ns my.app)".toList
      rfl rfl (by decide)).2.1 ⟨rfl, rfl⟩
  · exact (C7_label_recompute_gating
      { initState with stack := [⟨'(', 1, 1, "x"⟩] } '[' []
      rfl rfl (by decide)).2.2 (by decide)

/-- C8: the form namer returns `<keyword> <name>` when the first token
is a definition-introducing keyword or `ns` and a second token exists
(in particular `defrecord Point` for the text after the second `(` of
`(ns my.app) (defrecord Point [x y])`), a generic
`form starting line <N>` when no token is found before end of input or
a delimiter/quote, and `<symbol> form line <N>` otherwise — both when
the first token is not such a keyword and when it is one but no second
token follows. -/
theorem C8_form_namer :
    describe_top_level_form "defrecord Point [x y])".toList 1 =
      "defrecord Point" ∧
    (∀ (l : List Char) (line : Nat), (read_symbol l).1 = none →
      describe_top_level_form l line =
        "form starting line " ++ toString line) ∧
    (∀ (l : List Char) (line : Nat) (sym after name rest2 : List Char),
      read_symbol l = (some sym, after) → sym ≠ [] →
      (String.mk sym ∈ DEF_LIKE ∨ String.mk sym = "ns") →
      read_symbol after = (some name, rest2) → name ≠ [] →
      describe_top_level_form l line =
        String.mk sym ++ " " ++ String.mk name) ∧
    (∀ (l : List Char) (line : Nat) (sym after : List Char),
      read_symbol l = (some sym, after) → sym ≠ [] →
      (String.mk sym ∈ DEF_LIKE ∨ String.mk sym = "ns") →
      ((read_symbol after).1 = none ∨ (read_symbol after).1 = some []) →
      describe_top_level_form l line =
        String.mk sym ++ " form line " ++ toString line) ∧
    (∀ (l : List Char) (line : Nat) (sym after : List Char),
      read_symbol l = (some sym, after) → sym ≠ [] →
      ¬(String.mk sym ∈ DEF_LIKE ∨ String.mk sym = "ns") →
      describe_top_level_form l line =
        String.mk sym ++ " form line " ++ toString line) := by
  refine ⟨by decide, ?_, ?_, ?_, ?_⟩
  · intro l line h
    rcases hr : read_symbol l with ⟨o, r⟩
    rw [hr] at h
    simp only at h
    subst h
    simp [describe_top_level_form, hr]
  · intro l line sym after name rest2 hrl hsym hdef hra hname
    simp [describe_top_level_form, hrl, hsym, hdef, hra, hname]
  · intro l line sym after hrl hsym hdef hn
    rcases hn with hn | hn
    · simp [describe_top_level_form, hrl, hsym, hdef, hn]
    · simp [describe_top_level_form, hrl, hsym, hdef, hn]
  · intro l line sym after hrl hsym hdef
    simp [describe_top_level_form, hrl, hsym, hdef]

theorem C8_form_namer_witness :
    (read_symbol ")".toList).1 = none ∧
    describe_top_level_form ")".toList 2 = "form starting line 2" ∧
    describe_top_level_form "defn foo []".toList 3 = "defn foo" ∧
    describe_top_level_form "ns)".toList 1 = "ns form line 1" ∧
    describe_top_level_form "+ 1 2".toList 4 = "+ form line 4" := by
  refine ⟨by decide, ?_, ?_, ?_, ?_⟩
  · exact C8_form_namer.2.1 ")".toList 2 (by decide)
  · exact C8_form_namer.2.2.1 "defn foo []".toList 3 "defn".toList
      " foo []".toList "foo".toList " []".toList
      (by decide) (by decide) (by decide) (by decide) (by decide)
  · exact C8_form_namer.2.2.2.1 "ns)".toList 1 "ns".toList ")".toList
      (by decide) (by decide) (by decide) (Or.inl (by decide))
  · exact C8_form_namer.2.2.2.2 "+ 1 2".toList 4 "+".toList " 1 2".toList
      (by decide) (by decide) (by decide)

/-- The string/comment flags of the scanner, isolated: this is the part
of the scan state that decides whether a delimiter character is
structurally significant. -/
structure LexState where
  in_string : Bool
  escape : Bool
  in_comment : Bool
deriving DecidableEq, Repr

/-- The flag fields of a scan state. -/
def ScanState.lex (st : ScanState) : LexState :=
  ⟨st.in_string, st.escape, st.in_comment⟩

/-- The flag updates of `scanStep`, in the same branch order. -/
def lexStep (s : LexState) (ch : Char) : LexState :=
  if ch = '\n' then { s with in_comment := false }
  else if s.in_comment then s
  else if s.in_string then
    if s.escape then { s with escape := false }
    else if ch = '\\' then { s with escape := true }
    else if ch = '"' then { s with in_string := false }
    else s
  else if ch = ';' then { s with in_comment := true }
  else if ch = '"' then { s with in_string := true }
  else s

/-- `lexStep` folded over a text. -/
def lexRun (s : LexState) : List Char → LexState
  | [] => s
  | c :: rest => lexRun (lexStep s c) rest

/-- Spec-side notion: a character is an effective delimiter when the
scanner, in flag state `s`, would treat it as a structural delimiter
(it is a delimiter occurring outside string literals and line
comments). -/
def isEffective (s : LexState) (ch : Char) : Bool :=
  if ch = '\n' then false
  else if s.in_comment then false
  else if s.in_string then false
  else if ch = ';' then false
  else if ch = '"' then false
  else isOpenDelim ch || isCloseDelim ch

/-- Spec-side notion: the subsequence of delimiter characters of a text
that occur outside string literals and line comments. -/
def effectiveDelims (s : LexState) : List Char → List Char
  | [] => []
  | ch :: rest =>
    (if isEffective s ch then [ch] else []) ++
      effectiveDelims (lexStep s ch) rest

/-- Exhaustive case analysis for one scanner step, phrased through the
per-branch characterizations. -/
theorem scanStep_elim {P : ScanState → Prop} (st : ScanState) (ch : Char)
    (rest : List Char)
    (hnl : ch = '\n' →
      P { st with line := st.line + 1, col := 0, in_comment := false })
    (hcom : ch ≠ '\n' → st.in_comment = true →
      P { st with col := st.col + 1 })
    (hesc : ch ≠ '\n' → st.in_comment = false → st.in_string = true →
      st.escape = true → P { st with col := st.col + 1, escape := false })
    (hbs : ch = '\\' → st.in_comment = false → st.in_string = true →
      st.escape = false → P { st with col := st.col + 1, escape := true })
    (hsend : ch = '"' → st.in_comment = false → st.in_string = true →
      st.escape = false →
      P { st with col := st.col + 1, in_string := false })
    (hsoth : ch ≠ '\n' → ch ≠ '\\' → ch ≠ '"' → st.in_comment = false →
      st.in_string = true → st.escape = false →
      P { st with col := st.col + 1 })
    (hsemi : ch = ';' → st.in_comment = false → st.in_string = false →
      P { st with col := st.col + 1, in_comment := true })
    (hquo : ch = '"' → st.in_comment = false → st.in_string = false →
      P { st with col := st.col + 1, in_string := true })
    (hop : ch ≠ '\n' → ch ≠ ';' → ch ≠ '"' → st.in_comment = false →
      st.in_string = false → isOpenDelim ch = true →
      P { st with col := st.col + 1,
                  current_form :=
                    if ch = '(' ∧ st.stack = [] then
                      describe_top_level_form rest st.line
                    else st.current_form,
                  stack :=
                    ⟨ch, st.line, st.col + 1,
                      if ch = '(' ∧ st.stack = [] then
                        describe_top_level_form rest st.line
                      else st.current_form⟩ :: st.stack })
    (hcle : ch ≠ '\n' → ch ≠ ';' → ch ≠ '"' → st.in_comment = false →
      st.in_string = false → isCloseDelim ch = true → st.stack = [] →
      P { st with col := st.col + 1,
                  errors := st.errors ++
                    [Diag.unexpectedClose st.line (st.col + 1) ch] })
    (hclp : ∀ e stk, ch ≠ '\n' → ch ≠ ';' → ch ≠ '"' →
      st.in_comment = false → st.in_string = false →
      isCloseDelim ch = true → st.stack = e :: stk →
      P { st with col := st.col + 1, stack := stk,
                  errors := st.errors ++
                    (if e.char = openerOf ch then []
                     else [Diag.mismatched st.line (st.col + 1) ch
                            (openerOf ch) e]),
                  current_form :=
                    if stk = [] then "top-level" else st.current_form })
    (hpl : ch ≠ '\n' → ch ≠ ';' → ch ≠ '"' → isOpenDelim ch = false →
      isCloseDelim ch = false → st.in_comment = false →
      st.in_string = false → P { st with col := st.col + 1 }) :
    P (scanStep st ch rest) := by
  by_cases h1 : ch = '\n'
  · subst h1; rw [scanStep_nl]; exact hnl rfl
  by_cases h2 : st.in_comment = true
  · rw [scanStep_comment st ch rest h1 h2]; exact hcom h1 h2
  rw [Bool.not_eq_true] at h2
  by_cases h3 : st.in_string = true
  · by_cases h4 : st.escape = true
    · rw [scanStep_str_esc st ch rest h1 h2 h3 h4]; exact hesc h1 h2 h3 h4
    rw [Bool.not_eq_true] at h4
    by_cases h5 : ch = '\\'
    · subst h5; rw [scanStep_str_bs st rest h2 h3 h4]
      exact hbs rfl h2 h3 h4
    by_cases h6 : ch = '"'
    · subst h6; rw [scanStep_str_end st rest h2 h3 h4]
      exact hsend rfl h2 h3 h4
    · rw [scanStep_str_other st ch rest h1 h5 h6 h2 h3 h4]
      exact hsoth h1 h5 h6 h2 h3 h4
  rw [Bool.not_eq_true] at h3
  by_cases h7 : ch = ';'
  · subst h7; rw [scanStep_semi st rest h2 h3]; exact hsemi rfl h2 h3
  by_cases h6 : ch = '"'
  · subst h6; rw [scanStep_quote st rest h2 h3]; exact hquo rfl h2 h3
  by_cases ho : isOpenDelim ch = true
  · rw [scanStep_open st ch rest h2 h3 ho]; exact hop h1 h7 h6 h2 h3 ho
  rw [Bool.not_eq_true] at ho
  by_cases hc : isCloseDelim ch = true
  · cases hs : st.stack with
    | nil =>
      rw [scanStep_close_empty st ch rest h2 h3 hc hs]
      exact hcle h1 h7 h6 h2 h3 hc hs
    | cons e stk =>
      rw [scanStep_close_pop st ch rest e stk h2 h3 hc hs]
      exact hclp e stk h1 h7 h6 h2 h3 hc hs
  · rw [Bool.not_eq_true] at hc
    rw [scanStep_plain st ch rest h1 h7 h6 ho hc h2 h3]
    exact hpl h1 h7 h6 ho hc h2 h3

/-- The scanner's flag fields evolve exactly by `lexStep`. -/
theorem lex_scanStep (st : ScanState) (ch : Char) (rest : List Char) :
    (scanStep st ch rest).lex = lexStep st.lex ch := by
  refine @scanStep_elim (fun s => s.lex = lexStep st.lex ch) st ch rest
    ?_ ?_ ?_ ?_ ?_ ?_ ?_ ?_ ?_ ?_ ?_ ?_
  · intro h; subst h; simp [ScanState.lex, lexStep]
  · intro h1 h2; simp [ScanState.lex, lexStep, h1, h2]
  · intro h1 h2 h3 h4; simp [ScanState.lex, lexStep, h1, h2, h3, h4]
  · intro h5 h2 h3 h4; subst h5
    simp [ScanState.lex, lexStep, h2, h3, h4]
  · intro h6 h2 h3 h4; subst h6
    simp [ScanState.lex, lexStep, h2, h3, h4]
  · intro h1 h5 h6 h2 h3 h4
    simp [ScanState.lex, lexStep, h1, h5, h6, h2, h3, h4]
  · intro h7 h2 h3; subst h7; simp [ScanState.lex, lexStep, h2, h3]
  · intro h6 h2 h3; subst h6; simp [ScanState.lex, lexStep, h2, h3]
  · intro h1 h7 h6 h2 h3 ho
    simp [ScanState.lex, lexStep, h1, h7, h6, h2, h3]
  · intro h1 h7 h6 h2 h3 hc hs
    simp [ScanState.lex, lexStep, h1, h7, h6, h2, h3]
  · intro e stk h1 h7 h6 h2 h3 hc hs
    simp [ScanState.lex, lexStep, h1, h7, h6, h2, h3]
  · intro h1 h7 h6 ho hc h2 h3
    simp [ScanState.lex, lexStep, h1, h7, h6, h2, h3]

theorem open_cases (c : Char) (h : isOpenDelim c = true) :
    c = '(' ∨ c = '[' ∨ c = '{' := by
  simpa [isOpenDelim, or_assoc] using h

theorem close_cases (c : Char) (h : isCloseDelim c = true) :
    c = ')' ∨ c = ']' ∨ c = '}' := by
  simpa [isCloseDelim, or_assoc] using h

theorem close_not_open (c : Char) (h : isCloseDelim c = true) :
    isOpenDelim c = false := by
  rcases close_cases c h with rfl | rfl | rfl <;> decide

theorem closerOf_not_open (o : Char) (h : isOpenDelim o = true) :
    isOpenDelim (closerOf o) = false := by
  rcases open_cases o h with rfl | rfl | rfl <;> decide

theorem openerOf_closerOf (o : Char) (h : isOpenDelim o = true) :
    openerOf (closerOf o) = o := by
  rcases open_cases o h with rfl | rfl | rfl <;> decide

theorem closerOf_openerOf (c : Char) (h : isCloseDelim c = true) :
    closerOf (openerOf c) = c := by
  rcases close_cases c h with rfl | rfl | rfl <;> decide

/-- The delimiter-only abstraction of the scanner: a stack of opening
characters and an accumulated success flag, driven over the effective
delimiter sequence. A closer on an empty stack clears the flag; a
closer on a non-empty stack pops and conjoins the type check. -/
def delimRun (stk : List Char) (ok : Bool) : List Char → List Char × Bool
  | [] => (stk, ok)
  | c :: rest =>
    if isOpenDelim c then delimRun (c :: stk) ok rest
    else
      match stk with
      | [] => delimRun [] false rest
      | o :: stk2 => delimRun stk2 (ok && decide (o = openerOf c)) rest

theorem delimRun_cons_open (stk : List Char) (b : Bool) (c : Char)
    (rest : List Char) (h : isOpenDelim c = true) :
    delimRun stk b (c :: rest) = delimRun (c :: stk) b rest := by
  simp [delimRun, h]

theorem delimRun_cons_close_nil (b : Bool) (c : Char) (rest : List Char)
    (h : isOpenDelim c = false) :
    delimRun [] b (c :: rest) = delimRun [] false rest := by
  simp [delimRun, h]

theorem delimRun_cons_close_cons (o : Char) (stk2 : List Char) (b : Bool)
    (c : Char) (rest : List Char) (h : isOpenDelim c = false) :
    delimRun (o :: stk2) b (c :: rest) =
      delimRun stk2 (b && decide (o = openerOf c)) rest := by
  simp [delimRun, h]

theorem delimRun_fst (l : List Char) :
    ∀ (stk : List Char) (b : Bool),
      (delimRun stk b l).1 = (delimRun stk true l).1 := by
  induction l with
  | nil => intro stk b; rfl
  | cons c rest ih =>
    intro stk b
    by_cases h : isOpenDelim c = true
    · rw [delimRun_cons_open stk b c rest h,
          delimRun_cons_open stk true c rest h]
      exact ih _ _
    · rw [Bool.not_eq_true] at h
      cases stk with
      | nil =>
        rw [delimRun_cons_close_nil b c rest h,
            delimRun_cons_close_nil true c rest h]
      | cons o stk2 =>
        rw [delimRun_cons_close_cons o stk2 b c rest h,
            delimRun_cons_close_cons o stk2 true c rest h]
        rw [ih stk2 (b && decide (o = openerOf c)),
            ih stk2 (true && decide (o = openerOf c))]

theorem delimRun_snd (l : List Char) :
    ∀ (stk : List Char) (b : Bool),
      (delimRun stk b l).2 = (b && (delimRun stk true l).2) := by
  induction l with
  | nil => intro stk b; simp [delimRun]
  | cons c rest ih =>
    intro stk b
    by_cases h : isOpenDelim c = true
    · rw [delimRun_cons_open stk b c rest h,
          delimRun_cons_open stk true c rest h]
      exact ih _ _
    · rw [Bool.not_eq_true] at h
      cases stk with
      | nil =>
        rw [delimRun_cons_close_nil b c rest h,
            delimRun_cons_close_nil true c rest h]
        rw [ih [] false]
        simp
      | cons o stk2 =>
        rw [delimRun_cons_close_cons o stk2 b c rest h,
            delimRun_cons_close_cons o stk2 true c rest h]
        rw [ih stk2 (b && decide (o = openerOf c)),
            ih stk2 (true && decide (o = openerOf c))]
        simp [Bool.and_assoc]

/-- The recursive matched-delimiter checker over a pure delimiter
sequence. -/
def chk : List Char → List Char → Bool
  | stk, [] => stk.isEmpty
  | stk, c :: rest =>
    if isOpenDelim c then chk (c :: stk) rest
    else
      match stk with
      | [] => false
      | o :: stk2 => decide (o = openerOf c) && chk stk2 rest

theorem chk_cons_open (stk : List Char) (c : Char) (rest : List Char)
    (h : isOpenDelim c = true) :
    chk stk (c :: rest) = chk (c :: stk) rest := by
  simp [chk, h]

theorem chk_cons_close_nil (c : Char) (rest : List Char)
    (h : isOpenDelim c = false) :
    chk [] (c :: rest) = false := by
  simp [chk, h]

theorem chk_cons_close_cons (o : Char) (stk2 : List Char) (c : Char)
    (rest : List Char) (h : isOpenDelim c = false) :
    chk (o :: stk2) (c :: rest) =
      (decide (o = openerOf c) && chk stk2 rest) := by
  simp [chk, h]

theorem chk_eq_delimRun (l : List Char) :
    ∀ stk : List Char,
      chk stk l =
        ((delimRun stk true l).2 && (delimRun stk true l).1.isEmpty) := by
  induction l with
  | nil => intro stk; simp [chk, delimRun]
  | cons c rest ih =>
    intro stk
    by_cases h : isOpenDelim c = true
    · rw [chk_cons_open stk c rest h, delimRun_cons_open stk true c rest h]
      exact ih _
    · rw [Bool.not_eq_true] at h
      cases stk with
      | nil =>
        rw [chk_cons_close_nil c rest h,
            delimRun_cons_close_nil true c rest h]
        rw [delimRun_snd rest [] false]
        simp
      | cons o stk2 =>
        rw [chk_cons_close_cons o stk2 c rest h,
            delimRun_cons_close_cons o stk2 true c rest h,
            delimRun_snd rest stk2 (true && decide (o = openerOf c)),
            delimRun_fst rest stk2 (true && decide (o = openerOf c)),
            ih stk2]
        simp [Bool.and_assoc]

/-- Spec-side definition of a balanced delimiter sequence (the claim's
words): every opening delimiter has a correctly-typed, correctly-nested
matching closer, and no closer occurs with nothing open. -/
inductive BalancedDelims : List Char → Prop
  | nil : BalancedDelims []
  | wrap (o : Char) (l r : List Char) : isOpenDelim o = true →
      BalancedDelims l → BalancedDelims r →
      BalancedDelims (o :: (l ++ closerOf o :: r))

theorem BalancedDelims.chk_append {m : List Char} (h : BalancedDelims m) :
    ∀ stk rest, chk stk (m ++ rest) = chk stk rest := by
  induction h with
  | nil => intro stk rest; rfl
  | wrap o l r ho hl hr ihl ihr =>
    intro stk rest
    have h1 : (o :: (l ++ closerOf o :: r)) ++ rest =
        o :: (l ++ (closerOf o :: (r ++ rest))) := by simp
    rw [h1]
    rw [chk_cons_open stk o (l ++ (closerOf o :: (r ++ rest))) ho]
    rw [ihl (o :: stk) (closerOf o :: (r ++ rest))]
    rw [chk_cons_close_cons o stk (closerOf o) (r ++ rest)
        (closerOf_not_open o ho)]
    rw [openerOf_closerOf o ho]
    simp [ihr stk rest]

/-- The residual obligation of a delimiter stack: the remaining input
closes each stacked opener in order, with balanced segments between
the closers. -/
inductive MatchesStack : List Char → List Char → Prop
  | base (l : List Char) : BalancedDelims l → MatchesStack [] l
  | step (o : Char) (stk : List Char) (l1 l2 : List Char) :
      isOpenDelim o = true → BalancedDelims l1 → MatchesStack stk l2 →
      MatchesStack (o :: stk) (l1 ++ closerOf o :: l2)

theorem MatchesStack.wrapHead (o : Char) (ho : isOpenDelim o = true)
    (l1 : List Char) (h1 : BalancedDelims l1) {stk l2 : List Char}
    (h : MatchesStack stk l2) :
    MatchesStack stk (o :: (l1 ++ closerOf o :: l2)) := by
  match h with
  | .base _ hb =>
    exact MatchesStack.base _ (BalancedDelims.wrap o l1 l2 ho h1 hb)
  | .step o2 stk2 m1 m2 ho2 hm1 hms =>
    have he : o :: (l1 ++ closerOf o :: (m1 ++ closerOf o2 :: m2)) =
        (o :: (l1 ++ closerOf o :: m1)) ++ closerOf o2 :: m2 := by simp
    rw [he]
    exact MatchesStack.step o2 stk2 _ m2 ho2
      (BalancedDelims.wrap o l1 m1 ho h1 hm1) hms

theorem chk_matchesStack (l : List Char) :
    ∀ stk : List Char,
      (∀ c ∈ l, isOpenDelim c = true ∨ isCloseDelim c = true) →
      (∀ o ∈ stk, isOpenDelim o = true) →
      chk stk l = true → MatchesStack stk l := by
  induction l with
  | nil =>
    intro stk _ _ hc
    have hstk : stk = [] := by simpa [chk, List.isEmpty_iff] using hc
    subst hstk
    exact MatchesStack.base [] BalancedDelims.nil
  | cons c rest ih =>
    intro stk hl hstk hc
    by_cases hoc : isOpenDelim c = true
    · rw [chk_cons_open stk c rest hoc] at hc
      have hstk2 : ∀ o ∈ c :: stk, isOpenDelim o = true := by
        intro o ho
        rcases List.mem_cons.mp ho with rfl | ho2
        · exact hoc
        · exact hstk o ho2
      have hms := ih (c :: stk)
        (fun d hd => hl d (List.mem_cons_of_mem _ hd)) hstk2 hc
      match hms with
      | .step _ _ l1 l2 ho2 hb hms2 =>
        exact MatchesStack.wrapHead c hoc l1 hb hms2
    · rw [Bool.not_eq_true] at hoc
      have hcc : isCloseDelim c = true := by
        rcases hl c (List.mem_cons_self c rest) with h | h
        · rw [h] at hoc; exact absurd hoc (by simp)
        · exact h
      cases stk with
      | nil => rw [chk_cons_close_nil c rest hoc] at hc; exact absurd hc (by simp)
      | cons o stk2 =>
        rw [chk_cons_close_cons o stk2 c rest hoc] at hc
        have hc3 : decide (o = openerOf c) = true ∧ chk stk2 rest = true := by
          simpa using hc
        rcases hc3 with ⟨hd, hc2⟩
        have ho : o = openerOf c := of_decide_eq_true hd
        subst ho
        have hms := ih stk2
          (fun d hd2 => hl d (List.mem_cons_of_mem _ hd2))
          (fun o2 ho2 => hstk o2 (List.mem_cons_of_mem _ ho2)) hc2
        have hoo : isOpenDelim (openerOf c) = true :=
          hstk _ (List.mem_cons_self _ _)
        have hstep := MatchesStack.step (openerOf c) stk2 [] rest hoo
          BalancedDelims.nil hms
        rw [List.nil_append, closerOf_openerOf c hcc] at hstep
        exact hstep

theorem chk_iff_balanced (l : List Char)
    (h : ∀ c ∈ l, isOpenDelim c = true ∨ isCloseDelim c = true) :
    chk [] l = true ↔ BalancedDelims l := by
  constructor
  · intro hc
    have hms := chk_matchesStack l [] h (by simp) hc
    match hms with
    | .base _ hb => exact hb
  · intro hb
    have := hb.chk_append [] []
    simpa using this

theorem effectiveDelims_mem (t : List Char) :
    ∀ (s : LexState) (c : Char), c ∈ effectiveDelims s t →
      isOpenDelim c = true ∨ isCloseDelim c = true := by
  induction t with
  | nil => intro s c hc; simp [effectiveDelims] at hc
  | cons ch rest ih =>
    intro s c hc
    simp only [effectiveDelims, List.mem_append] at hc
    rcases hc with hc | hc
    · by_cases he : isEffective s ch = true
      · simp only [he, if_true, List.mem_singleton] at hc
        subst hc
        have hd : (isOpenDelim c || isCloseDelim c) = true := by
          simp only [isEffective] at he
          split_ifs at he
          exact he
        simpa using hd
      · simp [he] at hc
    · exact ih _ c hc

/-- Simulation: the scanner's stack (projected to characters) follows
the delimiter machine on the effective delimiter sequence, and its
error list is empty exactly when the machine's flag stays true. -/
theorem scan_sim (t : List Char) :
    ∀ st : ScanState,
      ((scanLoop st t).stack.map ParenEntry.char =
        (delimRun (st.stack.map ParenEntry.char) true
          (effectiveDelims st.lex t)).1) ∧
      ((scanLoop st t).errors = [] ↔
        st.errors = [] ∧
          (delimRun (st.stack.map ParenEntry.char) true
            (effectiveDelims st.lex t)).2 = true) := by
  induction t with
  | nil =>
    intro st
    simp [scanLoop, effectiveDelims, delimRun]
  | cons ch rest ih =>
    intro st
    refine @scanStep_elim
      (fun s =>
        ((scanLoop s rest).stack.map ParenEntry.char =
          (delimRun (st.stack.map ParenEntry.char) true
            (effectiveDelims st.lex (ch :: rest))).1) ∧
        ((scanLoop s rest).errors = [] ↔
          st.errors = [] ∧
            (delimRun (st.stack.map ParenEntry.char) true
              (effectiveDelims st.lex (ch :: rest))).2 = true))
      st ch rest ?_ ?_ ?_ ?_ ?_ ?_ ?_ ?_ ?_ ?_ ?_ ?_
    · intro h1; subst h1
      have h := ih { st with line := st.line + 1, col := 0,
                             in_comment := false }
      simpa [effectiveDelims, isEffective, ScanState.lex, lexStep] using h
    · intro h1 h2
      have h := ih { st with col := st.col + 1 }
      simpa [effectiveDelims, isEffective, ScanState.lex, lexStep,
             h1, h2] using h
    · intro h1 h2 h3 h4
      have h := ih { st with col := st.col + 1, escape := false }
      simpa [effectiveDelims, isEffective, ScanState.lex, lexStep,
             h1, h2, h3, h4] using h
    · intro h5 h2 h3 h4; subst h5
      have h := ih { st with col := st.col + 1, escape := true }
      simpa [effectiveDelims, isEffective, ScanState.lex, lexStep,
             h2, h3, h4] using h
    · intro h6 h2 h3 h4; subst h6
      have h := ih { st with col := st.col + 1, in_string := false }
      simpa [effectiveDelims, isEffective, ScanState.lex, lexStep,
             h2, h3, h4] using h
    · intro h1 h5 h6 h2 h3 h4
      have h := ih { st with col := st.col + 1 }
      simpa [effectiveDelims, isEffective, ScanState.lex, lexStep,
             h1, h5, h6, h2, h3, h4] using h
    · intro h7 h2 h3; subst h7
      have h := ih { st with col := st.col + 1, in_comment := true }
      simpa [effectiveDelims, isEffective, ScanState.lex, lexStep,
             h2, h3] using h
    · intro h6 h2 h3; subst h6
      have h := ih { st with col := st.col + 1, in_string := true }
      simpa [effectiveDelims, isEffective, ScanState.lex, lexStep,
             h2, h3] using h
    · intro h1 h7 h6 h2 h3 ho
      have h := ih
        { st with
            col := st.col + 1,
            current_form :=
              if ch = '(' ∧ st.stack = [] then
                describe_top_level_form rest st.line
              else st.current_form,
            stack :=
              ⟨ch, st.line, st.col + 1,
                if ch = '(' ∧ st.stack = [] then
                  describe_top_level_form rest st.line
                else st.current_form⟩ :: st.stack }
      simpa [effectiveDelims, isEffective, ScanState.lex, lexStep,
             h1, h7, h6, h2, h3, ho, delimRun_cons_open] using h
    · intro h1 h7 h6 h2 h3 hc hs
      have hco : isOpenDelim ch = false := close_not_open ch hc
      have hE : effectiveDelims st.lex (ch :: rest) =
          ch :: effectiveDelims st.lex rest := by
        simp [effectiveDelims, isEffective, ScanState.lex, lexStep,
              h1, h7, h6, h2, h3, hc, hco]
      have h := ih
        { st with
            col := st.col + 1,
            errors := st.errors ++
              [Diag.unexpectedClose st.line (st.col + 1) ch] }
      rw [hE]
      constructor
      · rw [h.1]
        simp only [hs, List.map_nil, ScanState.lex]
        rw [delimRun_cons_close_nil true ch _ hco]
        exact (delimRun_fst _ [] false).symm
      · rw [h.2]
        simp only [hs, List.map_nil, ScanState.lex]
        rw [delimRun_cons_close_nil true ch _ hco,
            delimRun_snd _ [] false]
        simp
    · intro e stk h1 h7 h6 h2 h3 hc hs
      have hco : isOpenDelim ch = false := close_not_open ch hc
      have hE : effectiveDelims st.lex (ch :: rest) =
          ch :: effectiveDelims st.lex rest := by
        simp [effectiveDelims, isEffective, ScanState.lex, lexStep,
              h1, h7, h6, h2, h3, hc, hco]
      have h := ih
        { st with
            col := st.col + 1, stack := stk,
            errors := st.errors ++
              (if e.char = openerOf ch then []
               else [Diag.mismatched st.line (st.col + 1) ch
                      (openerOf ch) e]),
            current_form :=
              if stk = [] then "top-level" else st.current_form }
      rw [hE]
      by_cases hm : e.char = openerOf ch
      · have hd : decide (e.char = openerOf ch) = true := by simp [hm]
        constructor
        · rw [h.1]
          simp only [hs, List.map_cons, ScanState.lex]
          rw [delimRun_cons_close_cons _ _ _ ch _ hco, hd,
              Bool.and_true]
        · rw [h.2]
          simp only [hs, List.map_cons, ScanState.lex]
          rw [delimRun_cons_close_cons _ _ _ ch _ hco, hd,
              Bool.and_true]
          simp [hm]
      · have hd : decide (e.char = openerOf ch) = false := by simp [hm]
        constructor
        · rw [h.1]
          simp only [hs, List.map_cons, ScanState.lex]
          rw [delimRun_cons_close_cons _ _ _ ch _ hco, hd,
              Bool.and_false]
          exact (delimRun_fst _ _ false).symm
        · rw [h.2]
          simp only [hs, List.map_cons, ScanState.lex]
          rw [delimRun_cons_close_cons _ _ _ ch _ hco, hd,
              Bool.and_false, delimRun_snd _ _ false]
          simp [hm]
    · intro h1 h7 h6 ho hc h2 h3
      have h := ih { st with col := st.col + 1 }
      simpa [effectiveDelims, isEffective, ScanState.lex, lexStep,
             h1, h7, h6, ho, hc, h2, h3] using h

/-- C1: the scan of a text produces zero diagnostics exactly when the
text is balanced, i.e. the sequence of delimiter characters occurring
outside string literals and line comments is well matched (every opener
has a correctly-typed, correctly-nested closer, and no closer occurs
with nothing open). -/
theorem C1_zero_diagnostics_iff_balanced (t : List Char) :
    check_text t = [] ↔
      BalancedDelims (effectiveDelims ⟨false, false, false⟩ t) := by
  have hsim := scan_sim t initState
  have hmem : ∀ c ∈ effectiveDelims ⟨false, false, false⟩ t,
      isOpenDelim c = true ∨ isCloseDelim c = true :=
    fun c hc => effectiveDelims_mem t ⟨false, false, false⟩ c hc
  rw [← chk_iff_balanced _ hmem, chk_eq_delimRun]
  have hstack : (scanLoop initState t).stack.map ParenEntry.char =
      (delimRun [] true (effectiveDelims ⟨false, false, false⟩ t)).1 := by
    simpa [initState, ScanState.lex] using hsim.1
  have herr : (scanLoop initState t).errors = [] ↔
      (delimRun [] true (effectiveDelims ⟨false, false, false⟩ t)).2 =
        true := by
    simpa [initState, ScanState.lex] using hsim.2
  rw [show check_text t = (scanLoop initState t).errors ++
      (scanLoop initState t).stack.map Diag.unclosed from rfl]
  constructor
  · intro h
    rcases List.append_eq_nil.mp h with ⟨h1, h2⟩
    have hst : (scanLoop initState t).stack = [] := List.map_eq_nil_iff.mp h2
    have hb2 := herr.mp h1
    rw [hst] at hstack
    simp only [List.map_nil] at hstack
    rw [hb2, ← hstack]
    rfl
  · intro h
    have h2 : (delimRun [] true
          (effectiveDelims ⟨false, false, false⟩ t)).2 = true ∧
        ((delimRun [] true
          (effectiveDelims ⟨false, false, false⟩ t)).1).isEmpty = true := by
      simpa using h
    rcases h2 with ⟨hb2, hb1⟩
    have h1 : (scanLoop initState t).errors = [] := herr.mpr hb2
    have hstk : (scanLoop initState t).stack = [] := by
      have hnil : (delimRun [] true
          (effectiveDelims ⟨false, false, false⟩ t)).1 = [] := by
        simpa [List.isEmpty_iff] using hb1
      rw [hnil] at hstack
      exact List.map_eq_nil_iff.mp hstack
    rw [h1, hstk]
    rfl

def formStartingLine (line : Nat) : String :=
  "form starting line " ++ toString line

def symFormLine (sym : String) (line : Nat) : String :=
  sym ++ " form line " ++ toString line

/-- The keyword test of `describe_top_level_form`. -/
def isDefLike (sym : String) : Bool :=
  decide (sym ∈ DEF_LIKE ∨ sym = "ns")

/-- The tail of `describe_top_level_form` after the second
`read_symbol`. -/
def nameResult (sym : String) (nameOpt : Option (List Char))
    (line : Nat) : String :=
  match nameOpt with
  | some name =>
    if name = [] then symFormLine sym line
    else sym ++ " " ++ String.mk name
  | none => symFormLine sym line

/-- The tail of `describe_top_level_form` after the first
`read_symbol`. -/
def afterFirstSym (sym : List Char) (after : List Char)
    (line : Nat) : String :=
  if sym = [] then formStartingLine line
  else if isDefLike (String.mk sym) then
    nameResult (String.mk sym) (read_symbol after).1 line
  else symFormLine (String.mk sym) line

theorem describe_cases (l : List Char) (line : Nat) :
    describe_top_level_form l line =
      (match read_symbol l with
       | (none, _) => formStartingLine line
       | (some sym, after) => afterFirstSym sym after line) := by
  rcases hr : read_symbol l with ⟨o, r⟩
  cases o with
  | none => simp [describe_top_level_form, hr, formStartingLine]
  | some sym =>
    simp only [describe_top_level_form, hr]
    by_cases h1 : sym = []
    · simp [h1, afterFirstSym, formStartingLine]
    · by_cases h2 : String.mk sym ∈ DEF_LIKE ∨ String.mk sym = "ns"
      · rcases hn : (read_symbol r).1 with _ | name
        · simp [h1, h2, hn, afterFirstSym, nameResult, isDefLike,
                symFormLine, formStartingLine]
        · by_cases h3 : name = [] <;>
            simp [h1, h2, h3, hn, afterFirstSym, nameResult, isDefLike,
                  symFormLine, formStartingLine]
      · simp [h1, h2, afterFirstSym, nameResult, isDefLike,
              symFormLine, formStartingLine]

theorem describe_congr {l1 l2 : List Char}
    (h : read_symbol l1 = read_symbol l2) (line : Nat) :
    describe_top_level_form l1 line = describe_top_level_form l2 line := by
  unfold describe_top_level_form
  rw [h]

theorem read_symbol_cons_ws (a : Char) (l : List Char)
    (ha : a ∈ WHITESPACE) :
    read_symbol (a :: l) = read_symbol l := by
  simp only [read_symbol, skip_space_and_comments]
  rw [show skipSC false (a :: l) = skipSC false l from by simp [skipSC, ha]]

theorem read_symbol_cons_semi (l : List Char) :
    read_symbol (';' :: l) = read_symbol (skip_comment l) := by
  simp only [read_symbol, skip_space_and_comments]
  rw [show skipSC false (';' :: l) = skipSC false (skip_comment l) from by
    rw [show skipSC false (';' :: l) = skipSC true l from by
      simp [skipSC, WHITESPACE]]
    rw [skipSC_true_eq]
    rfl]

theorem read_symbol_cons_stop (a : Char) (l : List Char)
    (h1 : a ∉ WHITESPACE) (h2 : a ≠ ';') (h3 : a ∈ symStopChars) :
    read_symbol (a :: l) = (none, a :: l) := by
  simp only [read_symbol, skip_space_and_comments]
  rw [show skipSC false (a :: l) = a :: l from by simp [skipSC, h1, h2]]
  simp [h3]

theorem read_symbol_cons_sym (a : Char) (l : List Char)
    (h1 : a ∉ WHITESPACE) (h2 : a ≠ ';') (h3 : a ∉ symStopChars) :
    read_symbol (a :: l) =
      (some (a :: (takeSym l).1), (takeSym l).2) := by
  have hbrk : isSymbolBreak a = false := by
    simp [isSymbolBreak, h1, h2, h3]
  simp only [read_symbol, skip_space_and_comments]
  rw [show skipSC false (a :: l) = a :: l from by simp [skipSC, h1, h2]]
  simp [h3, takeSym, hbrk]

theorem takeSym_cons_break (a : Char) (l : List Char)
    (h : isSymbolBreak a = true) :
    takeSym (a :: l) = ([], a :: l) := by
  simp [takeSym, h]

theorem takeSym_cons_sym (a : Char) (l : List Char)
    (h : isSymbolBreak a = false) :
    takeSym (a :: l) = (a :: (takeSym l).1, (takeSym l).2) := by
  simp [takeSym, h]

/-- The form namer re-expressed as a character-at-a-time machine: the
state records how far the two `read_symbol` calls of
`describe_top_level_form` have progressed. -/
inductive RState where
  | skip1 (inC : Bool)
  | sym1 (acc : List Char)
  | skip2 (sym : String) (inC : Bool)
  | sym2 (sym : String) (acc : List Char)
  | done (res : String)
deriving DecidableEq, Repr

/-- One machine step of the form namer on one character. -/
def rstep (line : Nat) : RState → Char → RState
  | .done r, _ => .done r
  | .skip1 true, a => if a = '\n' then .skip1 false else .skip1 true
  | .skip1 false, a =>
    if a ∈ WHITESPACE then .skip1 false
    else if a = ';' then .skip1 true
    else if a ∈ symStopChars then .done (formStartingLine line)
    else .sym1 [a]
  | .sym1 acc, a =>
    if isSymbolBreak a then
      if acc = [] then .done (formStartingLine line)
      else if isDefLike (String.mk acc) then
        if a ∈ WHITESPACE then .skip2 (String.mk acc) false
        else if a = ';' then .skip2 (String.mk acc) true
        else .done (symFormLine (String.mk acc) line)
      else .done (symFormLine (String.mk acc) line)
    else .sym1 (acc ++ [a])
  | .skip2 sym true, a => if a = '\n' then .skip2 sym false else .skip2 sym true
  | .skip2 sym false, a =>
    if a ∈ WHITESPACE then .skip2 sym false
    else if a = ';' then .skip2 sym true
    else if a ∈ symStopChars then .done (symFormLine sym line)
    else .sym2 sym [a]
  | .sym2 sym acc, a =>
    if isSymbolBreak a then
      if acc = [] then .done (symFormLine sym line)
      else .done (sym ++ " " ++ String.mk acc)
    else .sym2 sym (acc ++ [a])

/-- The meaning of a machine state: the label the form namer produces
when the remaining text is `l`. -/
def denote (line : Nat) : RState → List Char → String
  | .done r, _ => r
  | .skip1 false, l => describe_top_level_form l line
  | .skip1 true, l => describe_top_level_form (skip_comment l) line
  | .sym1 acc, l =>
    afterFirstSym (acc ++ (takeSym l).1) (takeSym l).2 line
  | .skip2 sym false, l => nameResult sym (read_symbol l).1 line
  | .skip2 sym true, l =>
    nameResult sym (read_symbol (skip_comment l)).1 line
  | .sym2 sym acc, l =>
    if acc ++ (takeSym l).1 = [] then symFormLine sym line
    else sym ++ " " ++ String.mk (acc ++ (takeSym l).1)

/-- One machine step preserves the denotation. -/
theorem denote_rstep (line : Nat) (s : RState) (a : Char) (l : List Char) :
    denote line (rstep line s a) l = denote line s (a :: l) := by
  cases s with
  | done r => rfl
  | skip1 inC =>
    cases inC with
    | true =>
      by_cases h : a = '\n'
      · subst h
        rw [show rstep line (RState.skip1 true) '\n' = RState.skip1 false
            from by simp [rstep]]
        show describe_top_level_form l line =
          describe_top_level_form (skip_comment ('\n' :: l)) line
        rw [show skip_comment ('\n' :: l) = '\n' :: l from by
          simp [skip_comment]]
        exact (describe_congr (read_symbol_cons_ws '\n' l (by decide))
          line).symm
      · rw [show rstep line (RState.skip1 true) a = RState.skip1 true
            from by simp [rstep, h]]
        show describe_top_level_form (skip_comment l) line =
          describe_top_level_form (skip_comment (a :: l)) line
        rw [show skip_comment (a :: l) = skip_comment l from by
          simp [skip_comment, h]]
    | false =>
      by_cases hw : a ∈ WHITESPACE
      · rw [show rstep line (RState.skip1 false) a = RState.skip1 false
            from by simp [rstep, hw]]
        show describe_top_level_form l line =
          describe_top_level_form (a :: l) line
        exact (describe_congr (read_symbol_cons_ws a l hw) line).symm
      · by_cases hsm : a = ';'
        · subst hsm
          rw [show rstep line (RState.skip1 false) ';' = RState.skip1 true
              from by simp [rstep, WHITESPACE]]
          show describe_top_level_form (skip_comment l) line =
            describe_top_level_form (';' :: l) line
          exact (describe_congr (read_symbol_cons_semi l) line).symm
        · by_cases hst : a ∈ symStopChars
          · rw [show rstep line (RState.skip1 false) a =
                RState.done (formStartingLine line) from by
              simp [rstep, hw, hsm, hst]]
            show formStartingLine line =
              describe_top_level_form (a :: l) line
            rw [describe_cases (a :: l) line,
                read_symbol_cons_stop a l hw hsm hst]
          · rw [show rstep line (RState.skip1 false) a = RState.sym1 [a]
                from by simp [rstep, hw, hsm, hst]]
            show afterFirstSym ([a] ++ (takeSym l).1) (takeSym l).2 line =
              describe_top_level_form (a :: l) line
            rw [describe_cases (a :: l) line,
                read_symbol_cons_sym a l hw hsm hst]
            rfl
  | sym1 acc =>
    by_cases hbrk : isSymbolBreak a = true
    · have ht : takeSym (a :: l) = ([], a :: l) := takeSym_cons_break a l hbrk
      show denote line (rstep line (RState.sym1 acc) a) l =
        afterFirstSym (acc ++ (takeSym (a :: l)).1) (takeSym (a :: l)).2 line
      rw [ht]
      simp only [List.append_nil]
      by_cases hacc : acc = []
      · rw [show rstep line (RState.sym1 acc) a =
            RState.done (formStartingLine line) from by
          simp [rstep, hbrk, hacc]]
        simp [afterFirstSym, hacc, denote]
      · by_cases hdl : isDefLike (String.mk acc) = true
        · by_cases hw : a ∈ WHITESPACE
          · rw [show rstep line (RState.sym1 acc) a =
                RState.skip2 (String.mk acc) false from by
              simp [rstep, hbrk, hacc, hdl, hw]]
            show nameResult (String.mk acc) (read_symbol l).1 line = _
            simp [afterFirstSym, hacc, hdl, read_symbol_cons_ws a l hw]
          · by_cases hsm : a = ';'
            · subst hsm
              rw [show rstep line (RState.sym1 acc) ';' =
                  RState.skip2 (String.mk acc) true from by
                simp [rstep, isSymbolBreak, WHITESPACE, hacc, hdl]]
              show nameResult (String.mk acc)
                (read_symbol (skip_comment l)).1 line = _
              simp [afterFirstSym, hacc, hdl, read_symbol_cons_semi l]
            · have hst : a ∈ symStopChars := by
                have hb2 := hbrk
                simp [isSymbolBreak, hw, hsm] at hb2
                exact hb2
              rw [show rstep line (RState.sym1 acc) a =
                  RState.done (symFormLine (String.mk acc) line) from by
                simp [rstep, hbrk, hacc, hdl, hw, hsm]]
              show symFormLine (String.mk acc) line = _
              simp [afterFirstSym, hacc, hdl,
                    read_symbol_cons_stop a l hw hsm hst, nameResult]
        · rw [show rstep line (RState.sym1 acc) a =
              RState.done (symFormLine (String.mk acc) line) from by
            simp [rstep, hbrk, hacc, hdl]]
          show symFormLine (String.mk acc) line = _
          simp [afterFirstSym, hacc, hdl]
    · have hbf : isSymbolBreak a = false := by simpa using hbrk
      rw [show rstep line (RState.sym1 acc) a = RState.sym1 (acc ++ [a])
          from by simp [rstep, hbf]]
      show afterFirstSym ((acc ++ [a]) ++ (takeSym l).1) (takeSym l).2 line =
        afterFirstSym (acc ++ (takeSym (a :: l)).1) (takeSym (a :: l)).2 line
      rw [takeSym_cons_sym a l hbf]
      simp
  | skip2 sym inC =>
    cases inC with
    | true =>
      by_cases h : a = '\n'
      · subst h
        rw [show rstep line (RState.skip2 sym true) '\n' =
            RState.skip2 sym false from by simp [rstep]]
        show nameResult sym (read_symbol l).1 line =
          nameResult sym (read_symbol (skip_comment ('\n' :: l))).1 line
        rw [show skip_comment ('\n' :: l) = '\n' :: l from by
          simp [skip_comment]]
        rw [read_symbol_cons_ws '\n' l (by decide)]
      · rw [show rstep line (RState.skip2 sym true) a =
            RState.skip2 sym true from by simp [rstep, h]]
        show nameResult sym (read_symbol (skip_comment l)).1 line =
          nameResult sym (read_symbol (skip_comment (a :: l))).1 line
        rw [show skip_comment (a :: l) = skip_comment l from by
          simp [skip_comment, h]]
    | false =>
      by_cases hw : a ∈ WHITESPACE
      · rw [show rstep line (RState.skip2 sym false) a =
            RState.skip2 sym false from by simp [rstep, hw]]
        show nameResult sym (read_symbol l).1 line =
          nameResult sym (read_symbol (a :: l)).1 line
        rw [read_symbol_cons_ws a l hw]
      · by_cases hsm : a = ';'
        · subst hsm
          rw [show rstep line (RState.skip2 sym false) ';' =
              RState.skip2 sym true from by simp [rstep, WHITESPACE]]
          show nameResult sym (read_symbol (skip_comment l)).1 line =
            nameResult sym (read_symbol (';' :: l)).1 line
          rw [read_symbol_cons_semi l]
        · by_cases hst : a ∈ symStopChars
          · rw [show rstep line (RState.skip2 sym false) a =
                RState.done (symFormLine sym line) from by
              simp [rstep, hw, hsm, hst]]
            show symFormLine sym line =
              nameResult sym (read_symbol (a :: l)).1 line
            rw [read_symbol_cons_stop a l hw hsm hst]
            rfl
          · rw [show rstep line (RState.skip2 sym false) a =
                RState.sym2 sym [a] from by simp [rstep, hw, hsm, hst]]
            show (if [a] ++ (takeSym l).1 = [] then symFormLine sym line
              else sym ++ " " ++ String.mk ([a] ++ (takeSym l).1)) =
              nameResult sym (read_symbol (a :: l)).1 line
            rw [read_symbol_cons_sym a l hw hsm hst]
            simp [nameResult]
  | sym2 sym acc =>
    by_cases hbrk : isSymbolBreak a = true
    · have ht := takeSym_cons_break a l hbrk
      by_cases hacc : acc = []
      · rw [show rstep line (RState.sym2 sym acc) a =
            RState.done (symFormLine sym line) from by
          simp [rstep, hbrk, hacc]]
        show symFormLine sym line = denote line (RState.sym2 sym acc) (a :: l)
        simp [denote, ht, hacc]
      · rw [show rstep line (RState.sym2 sym acc) a =
            RState.done (sym ++ " " ++ String.mk acc) from by
          simp [rstep, hbrk, hacc]]
        show sym ++ " " ++ String.mk acc =
          denote line (RState.sym2 sym acc) (a :: l)
        simp [denote, ht, hacc]
    · have hbf : isSymbolBreak a = false := by simpa using hbrk
      rw [show rstep line (RState.sym2 sym acc) a =
          RState.sym2 sym (acc ++ [a]) from by simp [rstep, hbf]]
      simp only [denote]
      rw [takeSym_cons_sym a l hbf]
      simp

/-- The form-namer machine folded over a text. -/
def rrun (line : Nat) : RState → List Char → RState
  | s, [] => s
  | s, a :: l => rrun line (rstep line s a) l

theorem rrun_done (line : Nat) (r : String) (l : List Char) :
    rrun line (RState.done r) l = RState.done r := by
  induction l with
  | nil => rfl
  | cons a l ih =>
    rw [show rrun line (RState.done r) (a :: l) =
        rrun line (rstep line (RState.done r) a) l from rfl]
    rw [show rstep line (RState.done r) a = RState.done r from rfl]
    exact ih

theorem rrun_append (line : Nat) (u v : List Char) :
    ∀ s, rrun line s (u ++ v) = rrun line (rrun line s u) v := by
  induction u with
  | nil => intro s; rfl
  | cons a u ih => intro s; exact ih (rstep line s a)

theorem denote_rrun (line : Nat) (l : List Char) :
    ∀ s, denote line (rrun line s l) [] = denote line s l := by
  induction l with
  | nil => intro s; rfl
  | cons a l ih =>
    intro s
    rw [show rrun line s (a :: l) = rrun line (rstep line s a) l from rfl,
        ih (rstep line s a), denote_rstep]

theorem describe_eq_denote (l : List Char) (line : Nat) :
    describe_top_level_form l line =
      denote line (rrun line (RState.skip1 false) l) [] :=
  (denote_rrun line l (RState.skip1 false)).symm

def RState.isDone : RState → Bool
  | .done _ => true
  | _ => false

def RState.inComment : RState → Bool
  | .skip1 b => b
  | .skip2 _ b => b
  | _ => false

theorem lexStep_normal_id (a : Char) (h7 : a ≠ ';') (h6 : a ≠ '"') :
    lexStep ⟨false, false, false⟩ a = ⟨false, false, false⟩ := by
  by_cases hn : a = '\n'
  · subst hn; simp [lexStep]
  · simp [lexStep, hn, h7, h6]

theorem ws_facts (a : Char) (h : a ∈ WHITESPACE) : a ≠ ';' ∧ a ≠ '"' := by
  simp only [WHITESPACE, List.mem_cons, List.mem_singleton,
             List.not_mem_nil, or_false] at h
  rcases h with rfl | rfl | rfl | rfl | rfl <;> exact ⟨by decide, by decide⟩

theorem not_stop_quote (a : Char) (h : a ∉ symStopChars) : a ≠ '"' :=
  fun he => h (he ▸ (by decide : ('"' : Char) ∈ symStopChars))

theorem notbreak_facts (a : Char) (h : isSymbolBreak a = false) :
    a ∉ WHITESPACE ∧ a ≠ ';' ∧ a ≠ '"' := by
  have hb : ¬(a ∈ WHITESPACE ∨ a ∈ symStopChars ∨ a = ';') := by
    intro hor
    rcases hor with h1 | h1 | h1 <;> simp [isSymbolBreak, h1] at h
  push_neg at hb
  exact ⟨hb.1, hb.2.2, not_stop_quote a hb.2.1⟩

/-- One step of the joint invariant: if the form-namer machine is not
done and its comment flag agrees with the scanner's lexical state
(which is neither inside a string nor mid-escape), the same holds
after consuming one character, unless the machine finishes. -/
theorem rstep_lex_inv (line : Nat) (s : RState) (sc : Bool) (a : Char)
    (hnd : s.isDone = false) (h3 : sc = s.inComment) :
    (rstep line s a).isDone = true ∨
      ((rstep line s a).isDone = false ∧
       (lexStep ⟨false, false, sc⟩ a).in_string = false ∧
       (lexStep ⟨false, false, sc⟩ a).escape = false ∧
       (lexStep ⟨false, false, sc⟩ a).in_comment =
         (rstep line s a).inComment) := by
  subst h3
  cases s with
  | done r => simp [RState.isDone] at hnd
  | skip1 b =>
    cases b with
    | true =>
      by_cases hn : a = '\n'
      · subst hn
        right
        refine ⟨by simp [rstep, RState.isDone], ?_, ?_, ?_⟩ <;>
          simp [rstep, lexStep, RState.inComment]
      · right
        refine ⟨by simp [rstep, RState.isDone, hn], ?_, ?_, ?_⟩ <;>
          simp [rstep, lexStep, RState.inComment, hn]
    | false =>
      by_cases hw : a ∈ WHITESPACE
      · right
        rcases ws_facts a hw with ⟨h7, h6⟩
        refine ⟨by simp [rstep, RState.isDone, hw], ?_, ?_, ?_⟩ <;>
          simp [rstep, RState.inComment, hw, lexStep_normal_id a h7 h6]
      · by_cases hsm : a = ';'
        · subst hsm
          right
          refine ⟨by simp [rstep, RState.isDone, hw], ?_, ?_, ?_⟩ <;>
            simp [rstep, lexStep, RState.inComment, hw]
        · by_cases hst : a ∈ symStopChars
          · left
            simp [rstep, RState.isDone, hw, hsm, hst]
          · right
            refine ⟨by simp [rstep, RState.isDone, hw, hsm, hst],
              ?_, ?_, ?_⟩ <;>
              simp [rstep, RState.inComment, hw, hsm, hst,
                    lexStep_normal_id a hsm (not_stop_quote a hst)]
  | sym1 acc =>
    by_cases hbrk : isSymbolBreak a = true
    · by_cases hacc : acc = []
      · left; simp [rstep, RState.isDone, hbrk, hacc]
      · by_cases hdl : isDefLike (String.mk acc) = true
        · by_cases hw : a ∈ WHITESPACE
          · right
            rcases ws_facts a hw with ⟨h7, h6⟩
            refine ⟨by simp [rstep, RState.isDone, hbrk, hacc, hdl, hw],
              ?_, ?_, ?_⟩ <;>
              simp [rstep, RState.inComment, hbrk, hacc, hdl, hw,
                    lexStep_normal_id a h7 h6]
          · by_cases hsm : a = ';'
            · subst hsm
              right
              refine ⟨by simp [rstep, RState.isDone, isSymbolBreak,
                  WHITESPACE, hacc, hdl], ?_, ?_, ?_⟩ <;>
                simp [rstep, lexStep, RState.inComment, isSymbolBreak,
                      WHITESPACE, hacc, hdl]
            · left
              simp [rstep, RState.isDone, hbrk, hacc, hdl, hw, hsm]
        · left
          simp [rstep, RState.isDone, hbrk, hacc, hdl]
    · have hbf : isSymbolBreak a = false := by simpa using hbrk
      rcases notbreak_facts a hbf with ⟨hw, h7, h6⟩
      right
      refine ⟨by simp [rstep, RState.isDone, hbf], ?_, ?_, ?_⟩ <;>
        simp [rstep, RState.inComment, hbf, lexStep_normal_id a h7 h6]
  | skip2 sym b =>
    cases b with
    | true =>
      by_cases hn : a = '\n'
      · subst hn
        right
        refine ⟨by simp [rstep, RState.isDone], ?_, ?_, ?_⟩ <;>
          simp [rstep, lexStep, RState.inComment]
      · right
        refine ⟨by simp [rstep, RState.isDone, hn], ?_, ?_, ?_⟩ <;>
          simp [rstep, lexStep, RState.inComment, hn]
    | false =>
      by_cases hw : a ∈ WHITESPACE
      · right
        rcases ws_facts a hw with ⟨h7, h6⟩
        refine ⟨by simp [rstep, RState.isDone, hw], ?_, ?_, ?_⟩ <;>
          simp [rstep, RState.inComment, hw, lexStep_normal_id a h7 h6]
      · by_cases hsm : a = ';'
        · subst hsm
          right
          refine ⟨by simp [rstep, RState.isDone, hw], ?_, ?_, ?_⟩ <;>
            simp [rstep, lexStep, RState.inComment, hw]
        · by_cases hst : a ∈ symStopChars
          · left
            simp [rstep, RState.isDone, hw, hsm, hst]
          · right
            refine ⟨by simp [rstep, RState.isDone, hw, hsm, hst],
              ?_, ?_, ?_⟩ <;>
              simp [rstep, RState.inComment, hw, hsm, hst,
                    lexStep_normal_id a hsm (not_stop_quote a hst)]
  | sym2 sym acc =>
    by_cases hbrk : isSymbolBreak a = true
    · by_cases hacc : acc = []
      · left; simp [rstep, RState.isDone, hbrk, hacc]
      · left; simp [rstep, RState.isDone, hbrk, hacc]
    · have hbf : isSymbolBreak a = false := by simpa using hbrk
      rcases notbreak_facts a hbf with ⟨hw, h7, h6⟩
      right
      refine ⟨by simp [rstep, RState.isDone, hbf], ?_, ?_, ?_⟩ <;>
        simp [rstep, RState.inComment, hbf, lexStep_normal_id a h7 h6]

/-- The joint invariant folded over a prefix: either the form-namer
machine has finished (its output no longer depends on further text), or
the scanner's lexical state over the same prefix is outside strings,
with no pending escape, and its comment flag equals the machine's. -/
theorem rrun_lex_inv (line : Nat) (u : List Char) :
    ∀ (s : RState) (sc : Bool), s.isDone = false → sc = s.inComment →
      (rrun line s u).isDone = true ∨
        ((rrun line s u).isDone = false ∧
         (lexRun ⟨false, false, sc⟩ u).in_string = false ∧
         (lexRun ⟨false, false, sc⟩ u).escape = false ∧
         (lexRun ⟨false, false, sc⟩ u).in_comment =
           (rrun line s u).inComment) := by
  induction u with
  | nil =>
    intro s sc hnd h3
    right
    exact ⟨hnd, rfl, rfl, h3⟩
  | cons a u ih =>
    intro s sc hnd h3
    rcases rstep_lex_inv line s sc a hnd h3 with hd | ⟨hnd2, hs2, he2, hc2⟩
    · left
      obtain ⟨r, hr⟩ : ∃ r, rstep line s a = RState.done r := by
        rcases hm : rstep line s a with b | acc | ⟨sy, b⟩ | ⟨sy, acc⟩ | r
        · rw [hm] at hd; exact absurd hd (by simp [RState.isDone])
        · rw [hm] at hd; exact absurd hd (by simp [RState.isDone])
        · rw [hm] at hd; exact absurd hd (by simp [RState.isDone])
        · rw [hm] at hd; exact absurd hd (by simp [RState.isDone])
        · exact ⟨r, rfl⟩
      rw [show rrun line s (a :: u) = rrun line (rstep line s a) u from rfl,
          hr, rrun_done]
      rfl
    · have hσ : lexStep ⟨false, false, sc⟩ a =
          ⟨false, false, (rstep line s a).inComment⟩ := by
        rcases hl : lexStep ⟨false, false, sc⟩ a with ⟨x, y, z⟩
        rw [hl] at hs2 he2 hc2
        rw [show x = false from hs2, show y = false from he2,
            show z = (rstep line s a).inComment from hc2]
      rw [show lexRun ⟨false, false, sc⟩ (a :: u) =
          lexRun (lexStep ⟨false, false, sc⟩ a) u from rfl, hσ]
      rw [show rrun line s (a :: u) = rrun line (rstep line s a) u from rfl]
      exact ih (rstep line s a) ((rstep line s a).inComment) hnd2 rfl

theorem machine_comment_cases (m : RState) (h1 : m.isDone = false)
    (h2 : m.inComment = true) :
    m = RState.skip1 true ∨ ∃ sym, m = RState.skip2 sym true := by
  cases m with
  | skip1 b =>
    cases b with
    | true => exact Or.inl rfl
    | false => simp [RState.inComment] at h2
  | skip2 sym b =>
    cases b with
    | true => exact Or.inr ⟨sym, rfl⟩
    | false => simp [RState.inComment] at h2
  | sym1 acc => simp [RState.inComment] at h2
  | sym2 sym acc => simp [RState.inComment] at h2
  | done r => simp [RState.isDone] at h1

theorem rstep_comment_id (line : Nat) (m : RState) (a : Char)
    (hnd : m.isDone = false) (hc : m.inComment = true) (ha : a ≠ '\n') :
    rstep line m a = m := by
  rcases machine_comment_cases m hnd hc with rfl | ⟨sym, rfl⟩ <;>
    simp [rstep, ha]

/-- Replacing a character that the scanner reads inside a string
literal or a line comment does not change any form-namer lookahead that
starts before it: if the lexical state after the prefix `u` (starting
from the normal state) is in-string or in-comment, the label computed
from `u ++ c :: t2` equals the label computed from `u ++ c2 :: t2`. -/
theorem describe_replace (u : List Char) (c c2 : Char) (t2 : List Char)
    (line : Nat) (hc : c ≠ '\n') (hc2 : c2 ≠ '\n')
    (h : (lexRun ⟨false, false, false⟩ u).in_string = true ∨
         (lexRun ⟨false, false, false⟩ u).in_comment = true) :
    describe_top_level_form (u ++ c :: t2) line =
      describe_top_level_form (u ++ c2 :: t2) line := by
  rw [describe_eq_denote, describe_eq_denote]
  rw [rrun_append, rrun_append]
  rcases rrun_lex_inv line u (RState.skip1 false) false rfl rfl with
    hd | ⟨hnd, hs, he, hcm⟩
  · obtain ⟨r, hr⟩ : ∃ r, rrun line (RState.skip1 false) u =
        RState.done r := by
      rcases hm : rrun line (RState.skip1 false) u with b | acc | ⟨sy, b⟩ | ⟨sy, acc⟩ | r
      · rw [hm] at hd; exact absurd hd (by simp [RState.isDone])
      · rw [hm] at hd; exact absurd hd (by simp [RState.isDone])
      · rw [hm] at hd; exact absurd hd (by simp [RState.isDone])
      · rw [hm] at hd; exact absurd hd (by simp [RState.isDone])
      · exact ⟨r, rfl⟩
    rw [hr, rrun_done, rrun_done]
  · have hcmach : (rrun line (RState.skip1 false) u).inComment = true := by
      rcases h with h | h
      · rw [hs] at h; exact absurd h (by simp)
      · rw [h] at hcm; exact hcm.symm
    rw [show rrun line (rrun line (RState.skip1 false) u) (c :: t2) =
        rrun line (rstep line (rrun line (RState.skip1 false) u) c) t2
        from rfl]
    rw [show rrun line (rrun line (RState.skip1 false) u) (c2 :: t2) =
        rrun line (rstep line (rrun line (RState.skip1 false) u) c2) t2
        from rfl]
    rw [rstep_comment_id line _ c hnd hcmach hc,
        rstep_comment_id line _ c2 hnd hcmach hc2]

theorem scanLoop_lex (t : List Char) :
    ∀ st : ScanState, (scanLoop st t).lex = lexRun st.lex t := by
  induction t with
  | nil => intro st; rfl
  | cons a t ih =>
    intro st
    rw [show scanLoop st (a :: t) = scanLoop (scanStep st a t) t from rfl,
        ih, lex_scanStep]
    rfl

theorem scanStep_escape_inv (st : ScanState) (ch : Char) (r : List Char)
    (h : st.escape = true → st.in_string = true) :
    (scanStep st ch r).escape = true →
      (scanStep st ch r).in_string = true := by
  refine @scanStep_elim (fun s => s.escape = true → s.in_string = true)
    st ch r ?_ ?_ ?_ ?_ ?_ ?_ ?_ ?_ ?_ ?_ ?_ ?_
  · intro _; exact h
  · intro _ _; exact h
  · intro _ _ _ _; simp
  · intro _ _ h3 _; exact fun _ => h3
  · intro _ _ _ h4
    intro he
    exact absurd he (by simp [h4])
  · intro _ _ _ _ _ _; exact h
  · intro _ _ _; exact h
  · intro _ _ _; exact fun _ => rfl
  · intro _ _ _ _ _ _; exact h
  · intro _ _ _ _ _ _ _; exact h
  · intro e stk _ _ _ _ _ _ _; exact h
  · intro _ _ _ _ _ _ _; exact h

theorem scanStep_inert (st : ScanState) (c c2 : Char) (r1 r2 : List Char)
    (h : st.in_string = true ∨ st.in_comment = true)
    (hn1 : c ≠ '\n') (hb1 : c ≠ '\\') (hq1 : c ≠ '"')
    (hn2 : c2 ≠ '\n') (hb2 : c2 ≠ '\\') (hq2 : c2 ≠ '"') :
    scanStep st c r1 = scanStep st c2 r2 := by
  by_cases hcm : st.in_comment = true
  · rw [scanStep_comment st c r1 hn1 hcm, scanStep_comment st c2 r2 hn2 hcm]
  · rw [Bool.not_eq_true] at hcm
    have hstr : st.in_string = true := by
      rcases h with h | h
      · exact h
      · rw [hcm] at h; exact absurd h (by simp)
    by_cases hesc : st.escape = true
    · rw [scanStep_str_esc st c r1 hn1 hcm hstr hesc,
          scanStep_str_esc st c2 r2 hn2 hcm hstr hesc]
    · rw [Bool.not_eq_true] at hesc
      rw [scanStep_str_other st c r1 hn1 hb1 hq1 hcm hstr hesc,
          scanStep_str_other st c2 r2 hn2 hb2 hq2 hcm hstr hesc]

theorem scanStep_rest_indep (st : ScanState) (ch : Char)
    (r1 r2 : List Char)
    (h : ¬(ch = '(' ∧ st.stack = [] ∧ st.in_comment = false ∧
           st.in_string = false)) :
    scanStep st ch r1 = scanStep st ch r2 := by
  refine @scanStep_elim (fun s => s = scanStep st ch r2) st ch r1
    ?_ ?_ ?_ ?_ ?_ ?_ ?_ ?_ ?_ ?_ ?_ ?_
  · intro h1; subst h1; rw [scanStep_nl]
  · intro h1 h2; rw [scanStep_comment st ch r2 h1 h2]
  · intro h1 h2 h3 h4; rw [scanStep_str_esc st ch r2 h1 h2 h3 h4]
  · intro h5 h2 h3 h4; subst h5; rw [scanStep_str_bs st r2 h2 h3 h4]
  · intro h6 h2 h3 h4; subst h6; rw [scanStep_str_end st r2 h2 h3 h4]
  · intro h1 h5 h6 h2 h3 h4
    rw [scanStep_str_other st ch r2 h1 h5 h6 h2 h3 h4]
  · intro h7 h2 h3; subst h7; rw [scanStep_semi st r2 h2 h3]
  · intro h6 h2 h3; subst h6; rw [scanStep_quote st r2 h2 h3]
  · intro h1 h7 h6 h2 h3 ho
    rw [scanStep_open st ch r2 h2 h3 ho]
    have hng : ¬(ch = '(' ∧ st.stack = []) := by
      intro hcontra
      exact h ⟨hcontra.1, hcontra.2, h2, h3⟩
    simp [hng]
  · intro h1 h7 h6 h2 h3 hc hs
    rw [scanStep_close_empty st ch r2 h2 h3 hc hs]
  · intro e stk h1 h7 h6 h2 h3 hc hs
    rw [scanStep_close_pop st ch r2 e stk h2 h3 hc hs]
  · intro h1 h7 h6 ho hc h2 h3
    rw [scanStep_plain st ch r2 h1 h7 h6 ho hc h2 h3]

theorem scanStep_rest_congr (st : ScanState) (ch : Char)
    (r1 r2 : List Char)
    (h : describe_top_level_form r1 st.line =
         describe_top_level_form r2 st.line) :
    scanStep st ch r1 = scanStep st ch r2 := by
  by_cases htr : ch = '(' ∧ st.stack = [] ∧ st.in_comment = false ∧
      st.in_string = false
  · rcases htr with ⟨h5, hstk, h2, h3⟩
    subst h5
    rw [scanStep_open st '(' r1 h2 h3 (by decide),
        scanStep_open st '(' r2 h2 h3 (by decide), h]
  · exact scanStep_rest_indep st ch r1 r2 htr

theorem delim_facts (c : Char)
    (h : (isOpenDelim c || isCloseDelim c) = true) :
    c ≠ '\n' ∧ c ≠ '\\' ∧ c ≠ '"' := by
  rcases (by simpa using h : isOpenDelim c = true ∨ isCloseDelim c = true)
    with h1 | h1
  · rcases open_cases c h1 with rfl | rfl | rfl <;>
      exact ⟨by decide, by decide, by decide⟩
  · rcases close_cases c h1 with rfl | rfl | rfl <;>
      exact ⟨by decide, by decide, by decide⟩

/-- A plain character: not a newline, escape, quote, comment start or
delimiter — one the scanner treats as inert in every state. -/
def isPlainChar (c : Char) : Bool :=
  decide (c ≠ '\n' ∧ c ≠ '\\' ∧ c ≠ '"' ∧ c ≠ ';' ∧
    isOpenDelim c = false ∧ isCloseDelim c = false)

theorem plain_facts (c : Char) (h : isPlainChar c = true) :
    c ≠ '\n' ∧ c ≠ '\\' ∧ c ≠ '"' ∧ c ≠ ';' ∧
      isOpenDelim c = false ∧ isCloseDelim c = false := by
  simpa [isPlainChar] using h

theorem scanLoop_replace (t1 : List Char) :
    ∀ st : ScanState, (st.escape = true → st.in_string = true) →
      ∀ (c c2 : Char) (t2 : List Char),
        (isOpenDelim c || isCloseDelim c) = true → isPlainChar c2 = true →
        ((lexRun st.lex t1).in_string = true ∨
         (lexRun st.lex t1).in_comment = true) →
        scanLoop st (t1 ++ c :: t2) = scanLoop st (t1 ++ c2 :: t2) := by
  induction t1 with
  | nil =>
    intro st hinv c c2 t2 hc hc2 hlex
    rcases delim_facts c hc with ⟨d1, d2, d3⟩
    rcases plain_facts c2 hc2 with ⟨p1, p2, p3, _, _, _⟩
    show scanLoop (scanStep st c t2) t2 = scanLoop (scanStep st c2 t2) t2
    rw [scanStep_inert st c c2 t2 t2 hlex d1 d2 d3 p1 p2 p3]
  | cons a t1 ih =>
    intro st hinv c c2 t2 hc hc2 hlex
    have hstep : scanStep st a (t1 ++ c :: t2) =
        scanStep st a (t1 ++ c2 :: t2) := by
      by_cases htr : a = '(' ∧ st.stack = [] ∧ st.in_comment = false ∧
          st.in_string = false
      · rcases htr with ⟨h5, hstk, h2, h3⟩
        subst h5
        have hescf : st.escape = false := by
          cases he : st.escape
          · rfl
          · exact absurd (hinv he) (by simp [h3])
        apply scanStep_rest_congr
        rcases delim_facts c hc with ⟨d1, _, _⟩
        rcases plain_facts c2 hc2 with ⟨p1, _, _, _, _, _⟩
        apply describe_replace t1 c c2 t2 st.line d1 p1
        have hlexeq : lexRun (⟨false, false, false⟩ : LexState) t1 =
            lexRun st.lex ('(' :: t1) := by
          have hid : lexStep st.lex '(' = ⟨false, false, false⟩ := by
            simp [ScanState.lex, lexStep, h2, h3, hescf]
          rw [show lexRun st.lex ('(' :: t1) =
              lexRun (lexStep st.lex '(') t1 from rfl, hid]
        rw [hlexeq]
        exact hlex
      · exact scanStep_rest_indep st a _ _ htr
    show scanLoop (scanStep st a (t1 ++ c :: t2)) (t1 ++ c :: t2) =
      scanLoop (scanStep st a (t1 ++ c2 :: t2)) (t1 ++ c2 :: t2)
    rw [← hstep]
    exact ih (scanStep st a (t1 ++ c :: t2))
      (scanStep_escape_inv st a _ hinv) c c2 t2 hc hc2
      (by rw [lex_scanStep]; exact hlex)

/-- C5: a delimiter character read while the scanner is inside a string
literal or a line comment never affects the delimiter stack or the
diagnostics: replacing it by any plain (non-delimiter, non-special)
character leaves the entire final scan state, and hence the diagnostic
sequence, unchanged. -/
theorem C5_string_comment_delims_inert (t1 : List Char) (c c2 : Char)
    (t2 : List Char)
    (hdelim : (isOpenDelim c || isCloseDelim c) = true)
    (hplain : isPlainChar c2 = true)
    (h : (scanLoop initState t1).in_string = true ∨
         (scanLoop initState t1).in_comment = true) :
    scanLoop initState (t1 ++ c :: t2) =
      scanLoop initState (t1 ++ c2 :: t2) ∧
    check_text (t1 ++ c :: t2) = check_text (t1 ++ c2 :: t2) := by
  have hlex : (lexRun initState.lex t1).in_string = true ∨
      (lexRun initState.lex t1).in_comment = true := by
    have hl := scanLoop_lex t1 initState
    rcases h with h | h
    · left; rw [← hl]; exact h
    · right; rw [← hl]; exact h
  have hmain := scanLoop_replace t1 initState (by simp [initState])
    c c2 t2 hdelim hplain hlex
  refine ⟨hmain, ?_⟩
  simp [check_text, hmain]

theorem C5_string_comment_delims_inert_witness :
    (isOpenDelim '(' || isCloseDelim '(') = true ∧
    isPlainChar 'x' = true ∧
    (scanLoop initState ['"']).in_string = true ∧
    check_text ['"', '('] = check_text ['"', 'x'] := by
  refine ⟨by decide, by decide, by decide, ?_⟩
  exact (C5_string_comment_delims_inert ['"'] '(' 'x' []
    (by decide) (by decide) (Or.inl (by decide))).2

/-- Lexicographic comparison of paths (as character lists), mirroring
how Python's `sorted` orders the relative paths produced by `rglob`. -/
def strLe : List Char → List Char → Bool
  | [], _ => true
  | _ :: _, [] => false
  | a :: as, b :: bs => if a = b then strLe as bs else decide (a < b)

/-- Insertion into a sorted list (the sort used to model `sorted`). -/
def insortStr (x : List Char) : List (List Char) → List (List Char)
  | [] => [x]
  | y :: ys => if strLe x y then x :: y :: ys else y :: insortStr x ys

/-- Insertion sort of a list of paths. -/
def sortStrs : List (List Char) → List (List Char)
  | [] => []
  | x :: xs => insortStr x (sortStrs xs)

def isSortedStrs : List (List Char) → Bool
  | [] => true
  | [_] => true
  | a :: b :: r => strLe a b && isSortedStrs (b :: r)

/-- `SIGNIFICANT_EXTENSIONS` from the source; Python iterates this
`set` in an unspecified order, modelled below by quantifying over
permutations of this list. -/
def SIGNIFICANT_EXTENSIONS : List (List Char) :=
  [".clj".toList, ".cljc".toList, ".cljs".toList]

/-- The directory branch of `gather_files`: for each extension (in the
set's iteration order `extOrder`), append the sorted list of files of
the recursive listing `tree` matching `*<ext>`. The file system is
abstracted: `tree` is the list of file paths `rglob` draws from, and
`match.is_file()` holds for all of them. -/
def gather_dir (extOrder : List (List Char))
    (tree : List (List Char)) : List (List Char) :=
  extOrder.flatMap (fun ext => sortStrs (tree.filter (fun f => ext.isSuffixOf f)))

/-- C9 (counterexample): for the directory listing
`[a.cljs, b.clj, c.cljs]`, no iteration order of the extension set
makes `gather_files` return a lexicographically sorted list: the files
are grouped by extension, and here every grouping is unsorted. -/
theorem C9_counterexample_not_lexicographic :
    ((SIGNIFICANT_EXTENSIONS.permutations').all (fun ord =>
      !(isSortedStrs (gather_dir ord
        ["a.cljs".toList, "b.clj".toList, "c.cljs".toList])))) = true := by
  decide

theorem strLe_total (a : List Char) :
    ∀ b : List Char, strLe a b = true ∨ strLe b a = true := by
  induction a with
  | nil => intro b; left; rfl
  | cons x xs ih =>
    intro b
    cases b with
    | nil => right; rfl
    | cons y ys =>
      by_cases hxy : x = y
      · subst hxy
        rcases ih ys with h | h
        · left; simp [strLe, h]
        · right; simp [strLe, h]
      · rcases lt_or_gt_of_ne hxy with h | h
        · left; simp [strLe, hxy, h]
        · right
          have hyx : ¬(y = x) := fun he => hxy he.symm
          have hlt : y < x := h
          simp [strLe, hyx, hlt]

theorem isSorted_insort (x : List Char) (l : List (List Char))
    (h : isSortedStrs l = true) :
    isSortedStrs (insortStr x l) = true := by
  induction l with
  | nil => rfl
  | cons y ys ih =>
    by_cases hxy : strLe x y = true
    · simp [insortStr, hxy, isSortedStrs, h]
    · have hyx : strLe y x = true := by
        rcases strLe_total x y with h1 | h1
        · exact absurd h1 hxy
        · exact h1
      simp only [insortStr, hxy, if_false, Bool.false_eq_true]
      cases ys with
      | nil => simp [insortStr, isSortedStrs, hyx]
      | cons z zs =>
        have hsort : isSortedStrs (z :: zs) = true := by
          have h2 := h
          simp [isSortedStrs] at h2
          exact h2.2
        have hyz : strLe y z = true := by
          have h2 := h
          simp [isSortedStrs] at h2
          exact h2.1
        have hins := ih hsort
        by_cases hxz : strLe x z = true
        · simp [insortStr, hxz, isSortedStrs, hyx, hsort]
        · simp only [insortStr, hxz, if_false, Bool.false_eq_true] at hins ⊢
          simp [isSortedStrs, hyz, hins]

theorem isSorted_sortStrs (l : List (List Char)) :
    isSortedStrs (sortStrs l) = true := by
  induction l with
  | nil => rfl
  | cons x xs ih => exact isSorted_insort x (sortStrs xs) ih

theorem mem_insort (a x : List Char) (l : List (List Char)) :
    a ∈ insortStr x l ↔ a = x ∨ a ∈ l := by
  induction l with
  | nil => simp [insortStr]
  | cons y ys ih =>
    by_cases hxy : strLe x y = true
    · simp [insortStr, hxy]
    · simp [insortStr, hxy, ih]
      tauto

theorem mem_sortStrs (a : List Char) (l : List (List Char)) :
    a ∈ sortStrs l ↔ a ∈ l := by
  induction l with
  | nil => simp [sortStrs]
  | cons x xs ih => simp [sortStrs, mem_insort, ih]

theorem suffix_getLast (e f : List Char) (he : e ≠ [])
    (h : e.isSuffixOf f = true) : f.getLast? = e.getLast? := by
  have hsuf : e <:+ f := List.isSuffixOf_iff_suffix.mp h
  rcases hsuf with ⟨p, hp⟩
  rcases List.eq_nil_or_concat e with rfl | ⟨e2, x, rfl⟩
  · exact absurd rfl he
  · rw [← hp, List.concat_eq_append,
        show p ++ (e2 ++ [x]) = (p ++ e2) ++ [x] from by simp]
    rw [List.getLast?_concat, List.getLast?_concat]

theorem ext_disjoint (e1 e2 : List Char) (h1 : e1 ∈ SIGNIFICANT_EXTENSIONS)
    (h2 : e2 ∈ SIGNIFICANT_EXTENSIONS) (hne : e1 ≠ e2) (f : List Char)
    (hs1 : e1.isSuffixOf f = true) : e2.isSuffixOf f = false := by
  by_cases hs2 : e2.isSuffixOf f = true
  · exfalso
    simp only [SIGNIFICANT_EXTENSIONS, List.mem_cons, List.mem_singleton,
               List.not_mem_nil, or_false] at h1 h2
    rcases h1 with rfl | rfl | rfl <;> rcases h2 with rfl | rfl | rfl <;>
      first
      | exact hne rfl
      | exact absurd ((suffix_getLast _ f (by decide) hs1).symm.trans
          (suffix_getLast _ f (by decide) hs2)) (by decide)
  · rw [Bool.not_eq_true] at hs2
    exact hs2

theorem filter_flatMap (l : List (List Char))
    (g : List Char → List (List Char)) (p : List Char → Bool) :
    (l.flatMap g).filter p = l.flatMap (fun e => (g e).filter p) := by
  induction l with
  | nil => rfl
  | cons a l ih => simp [List.filter_append, ih]

theorem flatMap_filter_nil (g : List Char → List (List Char))
    (p : List Char → Bool) :
    ∀ l : List (List Char), (∀ e ∈ l, (g e).filter p = []) →
      l.flatMap (fun e => (g e).filter p) = [] := by
  intro l
  induction l with
  | nil => intro _; rfl
  | cons a l ih =>
    intro h
    simp only [List.flatMap_cons]
    rw [h a (List.mem_cons_self a l), List.nil_append]
    exact ih (fun e he => h e (List.mem_cons_of_mem a he))

theorem flatMap_single (ext : List Char)
    (g : List Char → List (List Char)) (p : List Char → Bool)
    (hself : (g ext).filter p = g ext) :
    ∀ l : List (List Char), l.Nodup → ext ∈ l →
      (∀ e ∈ l, e ≠ ext → (g e).filter p = []) →
      (l.flatMap g).filter p = g ext := by
  intro l
  induction l with
  | nil => intro _ hm; simp at hm
  | cons a l ih =>
    intro hnd hm hother
    rcases List.nodup_cons.mp hnd with ⟨hna, hndl⟩
    rw [show (a :: l).flatMap g = g a ++ l.flatMap g from
        List.flatMap_cons .., List.filter_append]
    by_cases ha : a = ext
    · subst ha
      rw [hself]
      have hnil : (l.flatMap g).filter p = [] := by
        rw [filter_flatMap]
        apply flatMap_filter_nil
        intro e he
        exact hother e (List.mem_cons_of_mem a he)
          (fun hea => hna (hea ▸ he))
      rw [hnil, List.append_nil]
    · rw [hother a (List.mem_cons_self a l) ha, List.nil_append]
      have hm2 : ext ∈ l := by
        rcases List.mem_cons.mp hm with h | h
        · exact absurd h.symm ha
        · exact h
      exact ih hndl hm2
        (fun e he hne => hother e (List.mem_cons_of_mem a he) hne)

/-- C9 (amended): directory expansion groups files by extension (in
the unspecified iteration order of the extension set); within each
recognized extension the files appear exactly as the lexicographically
sorted matching files of the listing. The overall list need not be
sorted across extensions (see the counterexample). -/
theorem C9_per_extension_sorted (extOrder : List (List Char))
    (tree : List (List Char)) (ext : List Char)
    (hperm : extOrder.Perm SIGNIFICANT_EXTENSIONS)
    (hmem : ext ∈ extOrder) :
    (gather_dir extOrder tree).filter (fun f => ext.isSuffixOf f) =
      sortStrs (tree.filter (fun f => ext.isSuffixOf f)) ∧
    isSortedStrs ((gather_dir extOrder tree).filter
      (fun f => ext.isSuffixOf f)) = true := by
  have hmem2 : ext ∈ SIGNIFICANT_EXTENSIONS := hperm.mem_iff.mp hmem
  have hnodup : extOrder.Nodup := hperm.nodup_iff.mpr (by decide)
  have hself : (sortStrs (tree.filter (fun f => ext.isSuffixOf f))).filter
      (fun f => ext.isSuffixOf f) =
      sortStrs (tree.filter (fun f => ext.isSuffixOf f)) := by
    apply List.filter_eq_self.mpr
    intro x hx
    exact List.of_mem_filter ((mem_sortStrs x _).mp hx)
  have hother : ∀ e ∈ extOrder, e ≠ ext →
      (sortStrs (tree.filter (fun f => e.isSuffixOf f))).filter
        (fun f => ext.isSuffixOf f) = [] := by
    intro e he hne
    apply List.filter_eq_nil_iff.mpr
    intro x hx
    have hs1 : e.isSuffixOf x = true :=
      List.of_mem_filter ((mem_sortStrs x _).mp hx)
    have hdis := ext_disjoint e ext (hperm.mem_iff.mp he) hmem2 hne x hs1
    simp [hdis]
  have hkey := flatMap_single ext
    (fun e => sortStrs (tree.filter (fun f => e.isSuffixOf f)))
    (fun f => ext.isSuffixOf f) hself extOrder hnodup hmem hother
  refine ⟨hkey, ?_⟩
  rw [show (gather_dir extOrder tree).filter (fun f => ext.isSuffixOf f) =
      sortStrs (tree.filter (fun f => ext.isSuffixOf f)) from hkey]
  exact isSorted_sortStrs _

theorem C9_per_extension_sorted_witness :
    SIGNIFICANT_EXTENSIONS.Perm SIGNIFICANT_EXTENSIONS ∧
    ".clj".toList ∈ SIGNIFICANT_EXTENSIONS ∧
    (gather_dir SIGNIFICANT_EXTENSIONS
      ["a.cljs".toList, "b.clj".toList, "c.cljs".toList]).filter
        (fun f => ".clj".toList.isSuffixOf f) =
      sortStrs ((["a.cljs".toList, "b.clj".toList, "c.cljs".toList]).filter
        (fun f => ".clj".toList.isSuffixOf f)) :=
  ⟨List.Perm.refl _, by decide,
   (C9_per_extension_sorted SIGNIFICANT_EXTENSIONS
     ["a.cljs".toList, "b.clj".toList, "c.cljs".toList] ".clj".toList
     (List.Perm.refl _) (by decide)).1⟩
